import Mathlib

/-!
# DiscordReminder: the reminder engine of `src/reminderManager.js`

A shallow embedding of `ReminderManager` (with the collect handlers of
`src/collectorManager.js`) as explicit state passing.

* The manager object, the timer queue of the JavaScript runtime, the `user.send`
  promises that are still pending and a log of the `user.send` calls form one state
  value, `ReminderManager`.
* `mentionedUsers.forEach(async (user) => ...)` runs every callback synchronously up to
  its `await user.send(...)`; the code after the `await` (the `reminderCounts.set`) runs
  when the promise settles.  The synchronous part is `sendReminders`, the settlement is
  `sendSettled`.
* The module constants are gathered in a `Config`; `source` holds the values written in
  the file.
* Discord snowflake ids are natural numbers.  A luxon `DateTime` in the zone
  `Europe/Paris` is its local calendar reading together with the UTC offset in force
  and the zone; `diff` is elapsed time.  The rules of the zone come with the
  `DateTime`, since the time zone data is not part of the repository.
-/

namespace DiscordReminder

/-! ## JavaScript containers -/

/-- Discord ids. -/
abbrev Snowflake := Nat

/-- A JavaScript `Map` (also a discord.js `Collection`, and an object used as a
dictionary): the entries in insertion order. -/
abbrev JsMap (α : Type) := List (Snowflake × α)

namespace JsMap

/-- The method `Map.prototype.get`; `none` is `undefined`. -/
def get {α : Type} : JsMap α → Snowflake → Option α
  | [], _ => none
  | (k', v) :: m, k => if k' = k then some v else get m k

/-- The method `Map.prototype.has`. -/
def has {α : Type} (m : JsMap α) (k : Snowflake) : Bool :=
  (get m k).isSome

/-- The method `Map.prototype.set`: an existing key keeps its position. -/
def set {α : Type} : JsMap α → Snowflake → α → JsMap α
  | [], k, v => [(k, v)]
  | (k', v') :: m, k, v => if k' = k then (k, v) :: m else (k', v') :: set m k v

/-- The operator `delete obj[k]`. -/
def delete {α : Type} (m : JsMap α) (k : Snowflake) : JsMap α :=
  m.filter (fun e => !decide (e.1 = k))

/-- The constructor `new Map(entries)`. -/
def ofEntries {α : Type} (entries : List (Snowflake × α)) : JsMap α :=
  entries.foldl (fun m e => set m e.1 e.2) []

/-- The property `size`. -/
def size {α : Type} (m : JsMap α) : Nat := m.length

end JsMap

/-- A JavaScript `Set` of ids. -/
abbrev JsSet := List Snowflake

/-- The method `Set.prototype.has`. -/
def JsSet.has (s : JsSet) (k : Snowflake) : Bool := decide (k ∈ s)

/-- The method `Set.prototype.add`. -/
def JsSet.add (s : JsSet) (k : Snowflake) : JsSet := if k ∈ s then s else s ++ [k]

/-! ## Discord objects -/

/-- A discord.js `User`: the fields the engine reads. -/
structure User where
  id : Snowflake
  bot : Bool
  deriving DecidableEq, Repr

/-- A discord.js `GuildMember`. -/
structure GuildMember where
  user : User
  deriving DecidableEq, Repr

/-- The member manager `guild.members`: the cache, and what `fetch()` resolves to
(`none` when the request is rejected). -/
structure GuildMemberManager where
  cache : JsMap GuildMember
  fetch : Option (JsMap GuildMember)
  deriving DecidableEq, Repr

/-- A discord.js `Guild`. -/
structure Guild where
  id : Snowflake
  members : GuildMemberManager
  deriving DecidableEq, Repr

/-- A discord.js channel. -/
structure Channel where
  id : Snowflake
  deriving DecidableEq, Repr

/-- A guild message (the client subscribes to guild messages only, so `guild` is
always present). -/
structure Message where
  id : Snowflake
  author : User
  channel : Channel
  guild : Guild
  deriving DecidableEq, Repr

/-! ## Time -/

/-- A luxon zone, as far as the engine uses it: the UTC offset, in minutes, that the zone
gives to the local reading `day`, `hour`, `minute`.  The rules of `Europe/Paris` come
from the time zone data of the runtime, not from the repository. -/
structure Zone where
  offset : Nat → Nat → Nat → Int

/-- A luxon `DateTime` in the zone `Europe/Paris`: the local day number, the local
time-of-day fields, the UTC offset in minutes in force at that instant (the property
`offset`) and the zone (the property `zone`). -/
structure DateTime where
  day : Nat
  hour : Nat
  minute : Nat
  second : Nat
  millisecond : Nat
  offset : Int
  zone : Zone

namespace DateTime

/-- The fields are a time of day. -/
def Valid (t : DateTime) : Prop :=
  t.hour < 24 ∧ t.minute < 60 ∧ t.second < 60 ∧ t.millisecond < 1000

instance (t : DateTime) : Decidable t.Valid := by
  unfold Valid; infer_instance

/-- The call `plus` with `days: n`: the same local time of day `n` days later, at the
offset the zone gives to that reading. -/
def plusDays (t : DateTime) (n : Nat) : DateTime :=
  { t with day := t.day + n, offset := t.zone.offset (t.day + n) t.hour t.minute }

/-- The call `set` with the four time-of-day fields: that local time on the same day, at
the offset the zone gives to that reading. -/
def set (t : DateTime) (hour minute second millisecond : Nat) : DateTime :=
  { t with hour := hour, minute := minute, second := second, millisecond := millisecond,
           offset := t.zone.offset t.day hour minute }

/-- The instant in milliseconds (the method `toMillis`): the local reading less the UTC
offset. -/
def toMillis (t : DateTime) : Int :=
  ((((t.day : Int) * 24 + t.hour) * 60 + t.minute) * 60 + t.second) * 1000 + t.millisecond -
    t.offset * 60000

/-- The value `a.diff(b).milliseconds`: the elapsed time from `b` to `a`. -/
def diff (a b : DateTime) : Int := a.toMillis - b.toMillis

end DateTime

/-! ## Configuration: the module constants -/

/-- The constants at the head of `reminderManager.js`. -/
structure Config where
  REMINDER_INTERVAL : Int
  MAX_REMINDERS : Nat
  QUIET_HOURS_START : ℚ
  QUIET_HOURS_END : ℚ
  ENABLE_QUIET_HOURS : Bool

/-- `const REMINDER_INTERVAL = 5000`. -/
def REMINDER_INTERVAL : Int := 5000

/-- `const MAX_REMINDERS = 5`. -/
def MAX_REMINDERS : Nat := 5

/-- `const QUIET_HOURS_START = 22`. -/
def QUIET_HOURS_START : ℚ := 22

/-- `const QUIET_HOURS_END = 7.5`. -/
def QUIET_HOURS_END : ℚ := 15 / 2

/-- `const ENABLE_QUIET_HOURS = true`. -/
def ENABLE_QUIET_HOURS : Bool := true

/-- The configuration written in the source file. -/
def source : Config :=
  { REMINDER_INTERVAL := REMINDER_INTERVAL
    MAX_REMINDERS := MAX_REMINDERS
    QUIET_HOURS_START := QUIET_HOURS_START
    QUIET_HOURS_END := QUIET_HOURS_END
    ENABLE_QUIET_HOURS := ENABLE_QUIET_HOURS }

/-! ## State -/

/-- One entry of `this.reminderData`.  `uid` stands for the identity of the JavaScript
object, which the closures of the collectors and of the pending sends capture. -/
structure Reminder where
  uid : Nat
  message : Message
  mentionedUsers : JsMap User
  usersReplied : JsSet
  reminderCounts : JsMap Nat
  channel : Channel
  reminderTimeout : Option Nat
  createdAt : Nat
  deriving DecidableEq, Repr

/-- A live timer made by `setTimeout(() => this.sendReminders(messageId), delay)`. -/
structure Timer where
  handle : Nat
  messageId : Snowflake
  delay : Int
  deriving DecidableEq, Repr

/-- A `forEach` callback of `sendReminders` suspended in its `try` block at
`await user.send(...)`: the record and the local variables `user` and `reminderCount`.
(An exception thrown in the `try` block before the promise exists, by
`createReminderEmbed` or by `user.send`, reaches the same `catch` as a rejection.) -/
structure Delivery where
  record : Nat
  user : User
  reminderCount : Nat
  deriving DecidableEq, Repr

/-- The manager together with the runtime state its callbacks live in. -/
structure ReminderManager where
  reminderData : JsMap Reminder
  timers : List Timer
  nextHandle : Nat
  nextUid : Nat
  pending : List Delivery
  sent : List Delivery
  deriving DecidableEq, Repr

/-- The state after `new ReminderManager()`. -/
def ReminderManager.new : ReminderManager :=
  { reminderData := [], timers := [], nextHandle := 0, nextUid := 0, pending := [], sent := [] }

/-! ## The runtime: timers -/

/-- The call `setTimeout(() => this.sendReminders(messageId), delay)`: the new timer
and its handle. -/
def setTimeout (s : ReminderManager) (messageId : Snowflake) (delay : Int) :
    ReminderManager × Nat :=
  ({ s with timers := s.timers ++ [⟨s.nextHandle, messageId, delay⟩],
            nextHandle := s.nextHandle + 1 }, s.nextHandle)

/-- The call `clearTimeout(handle)`; `none` is `null`, and a handle that already fired
is ignored. -/
def clearTimeout (s : ReminderManager) (handle : Option Nat) : ReminderManager :=
  match handle with
  | none => s
  | some h => { s with timers := s.timers.filter (fun t => !decide (t.handle = h)) }

/-! ## `ReminderManager` -/

/-- The method `startReminderLoop(messageId)`.  Every call site has the record
registered; on a missing record the JavaScript statement would throw, the model leaves
the state as it is. -/
def startReminderLoop (cfg : Config) (s : ReminderManager) (messageId : Snowflake) :
    ReminderManager :=
  match s.reminderData.get messageId with
  | none => s
  | some reminder =>
    let (s1, handle) := setTimeout s messageId cfg.REMINDER_INTERVAL
    { s1 with reminderData :=
        s1.reminderData.set messageId { reminder with reminderTimeout := some handle } }

/-- The loop `mentionedUsers.forEach((user) => reminderCounts.set(user.id, 0))` of
`createReminder`. -/
def initialCounts (mentionedUsers : JsMap User) : JsMap Nat :=
  mentionedUsers.foldl (fun counts e => counts.set e.2.id 0) []

/-- The method `createReminder(message, mentionedUsers)`; `now` is `Date.now()`.  The two
`track...` calls register collectors, whose handler is `collect` below. -/
def createReminder (cfg : Config) (s : ReminderManager) (message : Message)
    (mentionedUsers : JsMap User) (now : Nat) : ReminderManager :=
  let messageId := message.id
  let reminder : Reminder :=
    { uid := s.nextUid
      message := message
      mentionedUsers := mentionedUsers
      usersReplied := []
      reminderCounts := initialCounts mentionedUsers
      channel := message.channel
      reminderTimeout := none
      createdAt := now }
  let s1 := { s with reminderData := s.reminderData.set messageId reminder,
                     nextUid := s.nextUid + 1 }
  startReminderLoop cfg s1 messageId

/-- The method `cleanupReminder(messageId)`. -/
def cleanupReminder (s : ReminderManager) (messageId : Snowflake) : ReminderManager :=
  match s.reminderData.get messageId with
  | none => s
  | some reminder =>
    let s1 := clearTimeout s reminder.reminderTimeout
    { s1 with reminderData := s1.reminderData.delete messageId }

/-- The local `currentHour = now.hour + now.minute / 60` of `sendReminders`. -/
def currentHour (now : DateTime) : ℚ := now.hour + now.minute / 60

/-- The quiet-hours test of `sendReminders`:
`ENABLE_QUIET_HOURS && (currentHour >= QUIET_HOURS_START || currentHour < QUIET_HOURS_END)`. -/
def inQuietHours (cfg : Config) (now : DateTime) : Bool :=
  cfg.ENABLE_QUIET_HOURS &&
    (decide (currentHour now ≥ cfg.QUIET_HOURS_START) ||
      decide (currentHour now < cfg.QUIET_HOURS_END))

/-- The local `tomorrowMorning` of `sendReminders`. -/
def tomorrowMorning (cfg : Config) (now : DateTime) : DateTime :=
  if (now.hour : ℚ) ≥ cfg.QUIET_HOURS_START then (now.plusDays 1).set 7 30 0 0
  else now.set 7 30 0 0

/-- The local `waitTime = tomorrowMorning.diff(now).milliseconds` of `sendReminders`. -/
def waitTime (cfg : Config) (now : DateTime) : Int :=
  (tomorrowMorning cfg now).diff now

/-- The synchronous part of one callback of `mentionedUsers.forEach(async (user) => ...)`
in `sendReminders`, up to its `await user.send(...)`: the accumulator is `usersPending`
and the `user.send` calls issued so far. -/
def remindUser (cfg : Config) (reminder : Reminder) (acc : Nat × List Delivery)
    (user : User) : Nat × List Delivery :=
  if !reminder.usersReplied.has user.id then
    let reminderCount := (reminder.reminderCounts.get user.id).getD 0
    if reminderCount < cfg.MAX_REMINDERS then
      (acc.1 + 1, acc.2 ++ [⟨reminder.uid, user, reminderCount⟩])
    else acc
  else acc

/-- The loop `mentionedUsers.forEach(...)` of `sendReminders`, starting from
`usersPending = 0`. -/
def remindAll (cfg : Config) (reminder : Reminder) : Nat × List Delivery :=
  reminder.mentionedUsers.foldl (fun acc e => remindUser cfg reminder acc e.2) (0, [])

/-- The method `sendReminders(messageId)` up to its return; `now` is
`DateTime.now().setZone('Europe/Paris')`.  The sends it issues are left pending. -/
def sendReminders (cfg : Config) (s : ReminderManager) (messageId : Snowflake)
    (now : DateTime) : ReminderManager :=
  match s.reminderData.get messageId with
  | none => s
  | some reminder =>
    if inQuietHours cfg now then
      (setTimeout s messageId (waitTime cfg now)).1
    else
      let (usersPending, calls) := remindAll cfg reminder
      let s1 := { s with pending := s.pending ++ calls, sent := s.sent ++ calls }
      if usersPending = 0 then cleanupReminder s1 messageId
      else startReminderLoop cfg s1 messageId

/-- Apply `f` to the record object `uid`, if the registry still holds it (an update of
an object that was removed from the registry cannot be seen). -/
def updateRecord (s : ReminderManager) (uid : Nat) (f : Reminder → Reminder) :
    ReminderManager :=
  { s with reminderData :=
      s.reminderData.map (fun e => if e.2.uid = uid then (e.1, f e.2) else e) }

/-- The rest of a `forEach` callback of `sendReminders` once its `user.send` promise
settles: fulfilled (`ok`) runs `reminderCounts.set(user.id, reminderCount + 1)`,
rejected runs the `catch` block, which only logs. -/
def sendSettled (s : ReminderManager) (d : Delivery) (ok : Bool) : ReminderManager :=
  if d ∈ s.pending then
    let s1 := { s with pending := s.pending.erase d }
    if ok then
      updateRecord s1 d.record
        (fun r => { r with reminderCounts := r.reminderCounts.set d.user.id (d.reminderCount + 1) })
    else s1
  else s

/-- The `collect` handler of the collectors of `CollectorManager` (`trackReactions`,
`trackReplies`, `trackThreadMessages`) for the record object `uid`: the collector filter
`mentionedUsers.has(id)`, then `reminder.usersReplied.add(id)`. -/
def collect (s : ReminderManager) (uid : Nat) (userId : Snowflake) : ReminderManager :=
  updateRecord s uid
    (fun r => if r.mentionedUsers.has userId then
        { r with usersReplied := r.usersReplied.add userId } else r)

/-- The local `guildMembers` of `handleEveryoneMention`: the cache when it is not empty,
else the result of `fetch()`. -/
def guildMembers (message : Message) : Option (JsMap GuildMember) :=
  if message.guild.members.cache.size ≠ 0 then some message.guild.members.cache
  else message.guild.members.fetch

/-- The local `mentionedUsers` of `handleEveryoneMention`: the `filter` and `map` over
the members. -/
def everyoneUsers (message : Message) (botId : Snowflake) (members : JsMap GuildMember) :
    List User :=
  (members.filter (fun e =>
      !e.2.user.bot && e.2.user.id != message.author.id && e.2.user.id != botId)).map
    (fun e => e.2.user)

/-- The method `handleEveryoneMention(message, botId)`; a rejected `fetch()` rejects the
call before anything is created. -/
def handleEveryoneMention (cfg : Config) (s : ReminderManager) (message : Message)
    (botId : Snowflake) (now : Nat) : ReminderManager :=
  match guildMembers message with
  | none => s
  | some members =>
    let mentionedUsers := everyoneUsers message botId members
    createReminder cfg s message
      (JsMap.ofEntries (mentionedUsers.map (fun user => (user.id, user)))) now

/-! ## Runs -/

/-- What can happen to a manager: the two entry points called by the client, a timer
that fires, a pending send that settles, and a collector event. -/
inductive Event where
  | createReminder (message : Message) (mentionedUsers : JsMap User) (now : Nat)
  | handleEveryoneMention (message : Message) (botId : Snowflake) (now : Nat)
  | timeout (handle : Nat) (now : DateTime)
  | settled (d : Delivery) (ok : Bool)
  | collect (uid : Nat) (userId : Snowflake)

/-- The timer `handle` fires: it leaves the queue and its callback
`this.sendReminders(messageId)` runs. -/
def fire (cfg : Config) (s : ReminderManager) (handle : Nat) (now : DateTime) :
    ReminderManager :=
  match s.timers.find? (fun t => decide (t.handle = handle)) with
  | none => s
  | some t =>
    sendReminders cfg { s with timers := s.timers.filter (fun t => !decide (t.handle = handle)) }
      t.messageId now

/-- One event. -/
def step (cfg : Config) (s : ReminderManager) : Event → ReminderManager
  | .createReminder message mentionedUsers now => createReminder cfg s message mentionedUsers now
  | .handleEveryoneMention message botId now => handleEveryoneMention cfg s message botId now
  | .timeout handle now => fire cfg s handle now
  | .settled d ok => sendSettled s d ok
  | .collect uid userId => collect s uid userId

/-- A run: the events in order, from `new ReminderManager()`. -/
def run (cfg : Config) (events : List Event) : ReminderManager :=
  events.foldl (step cfg) ReminderManager.new

/-! ## Derived notions used by the statements -/

/-- The test a `forEach` callback of `sendReminders` makes before it sends:
`!usersReplied.has(user.id)` and `reminderCount < MAX_REMINDERS`. -/
def eligible (cfg : Config) (reminder : Reminder) (user : User) : Bool :=
  !reminder.usersReplied.has user.id &&
    decide ((reminder.reminderCounts.get user.id).getD 0 < cfg.MAX_REMINDERS)

/-- The `user.send` calls of one cycle: one for each eligible recipient, in the order of
`mentionedUsers`. -/
def calls (cfg : Config) (reminder : Reminder) : List Delivery :=
  (reminder.mentionedUsers.filter (fun e => eligible cfg reminder e.2)).map
    (fun e => ⟨reminder.uid, e.2, (reminder.reminderCounts.get e.2.id).getD 0⟩)

/-- The counts of a record are within the cap and every recipient has a count. -/
def Reminder.CountsOk (cfg : Config) (r : Reminder) : Prop :=
  (∀ e ∈ r.reminderCounts, e.2 ≤ cfg.MAX_REMINDERS) ∧
    ∀ e ∈ r.mentionedUsers, (r.reminderCounts.get e.2.id).isSome

/-- The invariant of a run: every registered record has its counts in order, and every
pending send was issued below the cap. -/
def Inv (cfg : Config) (s : ReminderManager) : Prop :=
  (∀ e ∈ s.reminderData, e.2.CountsOk cfg) ∧
    ∀ d ∈ s.pending, d.reminderCount < cfg.MAX_REMINDERS

/-- The time of day in milliseconds since local midnight. -/
def msOfDay (t : DateTime) : Int :=
  (((t.hour : Int) * 60 + t.minute) * 60 + t.second) * 1000 + t.millisecond

/-- The time that the clock face shows from `t` to the next 07:30:00.000, which is
today's when `t` is before 07:30 (27,000,000 ms after midnight) and the next day's
otherwise (24 hours are 86,400,000 ms). -/
def clockUntilSevenThirty (t : DateTime) : Int :=
  if msOfDay t < 27000000 then 27000000 - msOfDay t
  else 86400000 - msOfDay t + 27000000

/-- The UTC offset, in minutes, that the zone of `t` gives to the next 07:30 after `t`. -/
def offsetAtSevenThirty (t : DateTime) : Int :=
  if msOfDay t < 27000000 then t.zone.offset t.day 7 30
  else t.zone.offset (t.day + 1) 7 30

/-- In the words of the spec: the time from `t` until the next 07:30:00.000 in the zone,
which is what the clock face shows less the change of the UTC offset in between
(60,000 ms for each minute of offset). -/
def untilNextSevenThirty (t : DateTime) : Int :=
  clockUntilSevenThirty t - 60000 * (offsetAtSevenThirty t - t.offset)

/-- In the words of the spec: the time of day is inside the quiet window, at or after
22:00 or before 07:30. -/
def InQuietWindow (t : DateTime) : Prop :=
  22 ≤ t.hour ∨ t.hour < 7 ∨ (t.hour = 7 ∧ t.minute < 30)

instance (t : DateTime) : Decidable (InQuietWindow t) := by
  unfold InQuietWindow; infer_instance

/-- In the words of the spec: the time of day is from 07:30 up to but excluding 22:00. -/
def InDayWindow (t : DateTime) : Prop :=
  (7 < t.hour ∨ (t.hour = 7 ∧ 30 ≤ t.minute)) ∧ t.hour < 22

instance (t : DateTime) : Decidable (InDayWindow t) := by
  unfold InDayWindow; infer_instance

/-- The registered records are distinct objects, older than the next one to be made. -/
def UidInv (s : ReminderManager) : Prop :=
  (s.reminderData.map (fun e => e.2.uid)).Nodup ∧ ∀ e ∈ s.reminderData, e.2.uid < s.nextUid

/-- The sends of a log that went to user `userId` for the record object `uid`. -/
def sentTo (log : List Delivery) (uid : Nat) (userId : Snowflake) : List Delivery :=
  log.filter (fun d => decide (d.record = uid) && decide (d.user.id = userId))

/-- The record object `uid`, if registered, has `userId` in its `usersReplied`. -/
def Acked (s : ReminderManager) (uid : Nat) (userId : Snowflake) : Prop :=
  ∀ e ∈ s.reminderData, e.2.uid = uid → e.2.usersReplied.has userId = true

/-! ## Sample data -/

/-- A recipient. -/
def alice : User := ⟨1, false⟩

/-- Another recipient. -/
def bob : User := ⟨2, false⟩

/-- A message of user 9 in a guild whose member list plays no part. -/
def sampleMessage : Message := ⟨10, ⟨9, false⟩, ⟨100⟩, ⟨200, ⟨[], some []⟩⟩⟩

/-- A zone that is at UTC+1 throughout. -/
def cet : Zone := ⟨fun _ _ _ => 60⟩

/-- Noon, outside the quiet window. -/
def noon : DateTime := ⟨0, 12, 0, 0, 0, 60, cet⟩

/-- A run: a message mentions alice and bob, the first cycle runs at noon, the send to
alice is fulfilled, bob reacts. -/
def sampleRun : List Event :=
  [.createReminder sampleMessage [(1, alice), (2, bob)] 0, .timeout 0 noon,
   .settled ⟨0, alice, 0⟩ true, .collect 0 2]

/-- The record of `sampleMessage` at the end of `sampleRun`. -/
def sampleRecord : Reminder :=
  { uid := 0, message := sampleMessage, mentionedUsers := [(1, alice), (2, bob)],
    usersReplied := [2], reminderCounts := [(1, 1), (2, 0)], channel := ⟨100⟩,
    reminderTimeout := some 1, createdAt := 0 }

/-- Eleven in the evening, inside the quiet window, on a night without a change of
offset. -/
def elevenPm : DateTime := ⟨0, 23, 0, 0, 0, 60, cet⟩

/-- The zone `Europe/Paris` in 2026, days counted within the year (1 January is day 1):
UTC+2 from 29 March (day 88) 03:00 to 25 October (day 298) 03:00, else UTC+1. -/
def paris2026 : Zone :=
  ⟨fun day hour _ =>
    if (88 < day ∨ (day = 88 ∧ 3 ≤ hour)) ∧ (day < 298 ∨ (day = 298 ∧ hour < 3)) then 120
    else 60⟩

/-- 28 March 2026 (day 87), 23:00:00.000 at UTC+1: the night the clocks go forward. -/
def marchNight : DateTime := ⟨87, 23, 0, 0, 0, 60, paris2026⟩

/-- 24 October 2026 (day 297), 22:00:00.000 at UTC+2: the night the clocks go back. -/
def octoberNight : DateTime := ⟨297, 22, 0, 0, 0, 120, paris2026⟩

/-- One recipient; the first two cycles run before any send settles; the first send is
fulfilled; the third cycle runs and its send is fulfilled. -/
def staleRun : List Event :=
  [.createReminder sampleMessage [(1, alice)] 0, .timeout 0 noon, .timeout 1 noon,
   .settled ⟨0, alice, 0⟩ true, .timeout 2 noon, .settled ⟨0, alice, 1⟩ true]

/-- The state of `sampleRun` before any event but the creation. -/
def createdState : ReminderManager :=
  createReminder source ReminderManager.new sampleMessage [(1, alice), (2, bob)] 0

/-- The record of `sampleMessage` in `createdState`. -/
def createdRecord : Reminder :=
  { uid := 0, message := sampleMessage, mentionedUsers := [(1, alice), (2, bob)],
    usersReplied := [], reminderCounts := [(1, 0), (2, 0)], channel := ⟨100⟩,
    reminderTimeout := some 0, createdAt := 0 }

/-! ## The scenario of recipients A and B -/

/-- The configuration of the scenario: `maxReminders = 2`, `reminderIntervalMs = 1000`,
quiet hours disabled. -/
def scenario : Config :=
  { REMINDER_INTERVAL := 1000
    MAX_REMINDERS := 2
    QUIET_HOURS_START := QUIET_HOURS_START
    QUIET_HOURS_END := QUIET_HOURS_END
    ENABLE_QUIET_HOURS := false }

/-- The scenario up to the end of the first cycle: the message mentions A (`alice`) and
B (`bob`), the first timer fires at `t1`, both sends are fulfilled. -/
def firstCycle (t1 : DateTime) : List Event :=
  [.createReminder sampleMessage [(1, alice), (2, bob)] 0, .timeout 0 t1,
   .settled ⟨0, alice, 0⟩ true, .settled ⟨0, bob, 0⟩ true]

/-- The scenario up to the end of the second cycle: B acknowledges, the second timer
fires at `t2`, the send of that cycle is fulfilled. -/
def secondCycle (t1 t2 : DateTime) : List Event :=
  firstCycle t1 ++ [.collect 0 2, .timeout 1 t2, .settled ⟨0, alice, 1⟩ true]

/-- The scenario up to the end of the third cycle: the third timer fires at `t3`. -/
def thirdCycle (t1 t2 t3 : DateTime) : List Event :=
  secondCycle t1 t2 ++ [.timeout 2 t3]

/-- The record of the scenario with the given acknowledgments, counts and timer. -/
def scenarioRecord (usersReplied : JsSet) (reminderCounts : JsMap Nat) (handle : Nat) :
    Reminder :=
  { uid := 0, message := sampleMessage, mentionedUsers := [(1, alice), (2, bob)],
    usersReplied := usersReplied, reminderCounts := reminderCounts, channel := ⟨100⟩,
    reminderTimeout := some handle, createdAt := 0 }

/-! ## Broadcast mentions -/

/-- A guild whose only members are the author of `lonelyMessage` (user 9) and the bot
itself (user 7). -/
def lonelyGuild : Guild :=
  ⟨201, ⟨[(9, ⟨⟨9, false⟩⟩), (7, ⟨⟨7, true⟩⟩)], none⟩⟩

/-- A message of user 9 in `lonelyGuild` that mentions `@everyone`. -/
def lonelyMessage : Message := ⟨11, ⟨9, false⟩, ⟨101⟩, lonelyGuild⟩

/-- Ten members: eight users, the author of `broadcastMessage` (user 9) and the bot
itself (user 20). -/
def tenMembers : JsMap GuildMember :=
  [(1, ⟨⟨1, false⟩⟩), (2, ⟨⟨2, false⟩⟩), (3, ⟨⟨3, false⟩⟩), (4, ⟨⟨4, false⟩⟩),
   (5, ⟨⟨5, false⟩⟩), (6, ⟨⟨6, false⟩⟩), (7, ⟨⟨7, false⟩⟩), (8, ⟨⟨8, false⟩⟩),
   (9, ⟨⟨9, false⟩⟩), (20, ⟨⟨20, true⟩⟩)]

/-- A message of user 9, in a guild with the members `tenMembers` in its cache, that
mentions `@everyone`. -/
def broadcastMessage : Message := ⟨12, ⟨9, false⟩, ⟨102⟩, ⟨202, ⟨tenMembers, none⟩⟩⟩

/-! ## Rounds: a cycle and what follows it before the next cycle -/

/-- The sends `ds`, one after the other, settle with the same outcome. -/
def settleAll (s : ReminderManager) (ds : List Delivery) (ok : Bool) : ReminderManager :=
  ds.foldl (fun s d => sendSettled s d ok) s

/-- Collector events of the users `userIds`, one after the other, for the record object
`uid`. -/
def collectAll (s : ReminderManager) (uid : Nat) (userIds : List Snowflake) :
    ReminderManager :=
  userIds.foldl (fun s k => collect s uid k) s

/-- One round for the message `messageId`, while it has a record: the timer stored in
the record fires at `now`; every send that this cycle issued settles, with outcome `ok`,
before the next cycle; then the users `acks` react or reply.  Without a record there is
no timer and nothing happens. -/
def round (cfg : Config) (s : ReminderManager) (messageId : Snowflake) (now : DateTime)
    (ok : Bool) (acks : List Snowflake) : ReminderManager :=
  match s.reminderData.get messageId with
  | none => s
  | some reminder =>
    match reminder.reminderTimeout with
    | none => s
    | some handle =>
      collectAll (settleAll (fire cfg s handle now) (remindAll cfg reminder).2 ok)
        reminder.uid acks

/-- Rounds in a row, each with its time and its acknowledgments. -/
def rounds (cfg : Config) (s : ReminderManager) (messageId : Snowflake) (ok : Bool)
    (plan : List (DateTime × List Snowflake)) : ReminderManager :=
  plan.foldl (fun s p => round cfg s messageId p.1 ok p.2) s

/-- Every live timer was made before the next handle. -/
def HandleInv (s : ReminderManager) : Prop :=
  ∀ t ∈ s.timers, t.handle < s.nextHandle

/-- The timer stored in the record `r` is live and is a timer of `messageId`. -/
def Due (s : ReminderManager) (messageId : Snowflake) (r : Reminder) : Prop :=
  ∃ h delay, r.reminderTimeout = some h ∧
    s.timers.find? (fun t => decide (t.handle = h)) = some ⟨h, messageId, delay⟩

/-- Every recipient of `r` is acknowledged or has count `k`. -/
def RoundInv (k : Nat) (r : Reminder) : Prop :=
  ∀ e ∈ r.mentionedUsers,
    r.usersReplied.has e.2.id = true ∨ r.reminderCounts.get e.2.id = some k

/-- The log of `n` cycles that each send to every recipient of `mentionedUsers`, the
sends of cycle `j` (counted from 0) being issued at count `count j`. -/
def cycleLog (uid : Nat) (mentionedUsers : JsMap User) (count : Nat → Nat) :
    Nat → List Delivery
  | 0 => []
  | n + 1 =>
    cycleLog uid mentionedUsers count n ++
      mentionedUsers.map (fun e => ⟨uid, e.2, count n⟩)

/-- The record `r` is the record object `uid` with recipients `mentionedUsers`, nobody
acknowledged and every recipient at count `k`. -/
def Unanswered (uid : Nat) (mentionedUsers : JsMap User) (k : Nat) (r : Reminder) : Prop :=
  r.uid = uid ∧ r.mentionedUsers = mentionedUsers ∧ r.usersReplied = [] ∧
    ∀ e ∈ mentionedUsers, r.reminderCounts.get e.2.id = some k

/-- Six rounds at noon in which nobody acknowledges. -/
def sixRounds : List (DateTime × List Snowflake) := List.replicate 6 (noon, [])

/-- Seven rounds at noon in which nobody acknowledges. -/
def sevenRounds : List (DateTime × List Snowflake) := List.replicate 7 (noon, [])

/-! ## Lemmas: containers -/

namespace JsMap

theorem mem_of_get {α : Type} {m : JsMap α} {k : Snowflake} {v : α}
    (h : get m k = some v) : (k, v) ∈ m := by
  induction m with
  | nil => simp [get] at h
  | cons e m ih =>
    obtain ⟨k', v'⟩ := e
    by_cases hk : k' = k
    · simp [get, hk] at h
      simp [hk, h]
    · simp [get, hk] at h
      exact List.mem_cons_of_mem _ (ih h)

theorem mem_set {α : Type} {m : JsMap α} {k : Snowflake} {v : α} {e : Snowflake × α}
    (h : e ∈ set m k v) : e = (k, v) ∨ e ∈ m := by
  induction m with
  | nil => simp [set] at h; exact Or.inl h
  | cons e' m ih =>
    obtain ⟨k', v'⟩ := e'
    by_cases hk : k' = k
    · simp [set, hk] at h
      rcases h with h | h
      · exact Or.inl h
      · exact Or.inr (List.mem_cons_of_mem _ h)
    · simp [set, hk] at h
      rcases h with h | h
      · exact Or.inr (by simp [h])
      · rcases ih h with h | h
        · exact Or.inl h
        · exact Or.inr (List.mem_cons_of_mem _ h)

theorem get_set_self {α : Type} (m : JsMap α) (k : Snowflake) (v : α) :
    get (set m k v) k = some v := by
  induction m with
  | nil => simp [set, get]
  | cons e m ih =>
    obtain ⟨k', v'⟩ := e
    by_cases hk : k' = k
    · simp [set, get, hk]
    · simp [set, get, hk, ih]

theorem get_set_ne {α : Type} (m : JsMap α) {k k' : Snowflake} (v : α) (h : k' ≠ k) :
    get (set m k v) k' = get m k' := by
  induction m with
  | nil => simp [set, get, Ne.symm h]
  | cons e m ih =>
    obtain ⟨k'', v''⟩ := e
    by_cases hk : k'' = k
    · subst hk
      simp [set, get, Ne.symm h]
    · by_cases hk' : k'' = k'
      · subst hk'
        simp [set, get, hk]
      · simp [set, get, hk, hk', ih]

theorem get_set_isSome {α : Type} (m : JsMap α) (k k' : Snowflake) (v : α)
    (h : (get m k').isSome) : (get (set m k v) k').isSome := by
  by_cases hk : k' = k
  · subst hk; simp [get_set_self]
  · rw [get_set_ne m v hk]; exact h

theorem mem_delete {α : Type} {m : JsMap α} {k : Snowflake} {e : Snowflake × α}
    (h : e ∈ delete m k) : e ∈ m := by
  unfold delete at h
  exact (List.mem_filter.mp h).1

theorem get_delete_self {α : Type} (m : JsMap α) (k : Snowflake) :
    get (delete m k) k = none := by
  induction m with
  | nil => simp [delete, get]
  | cons e m ih =>
    obtain ⟨k', v'⟩ := e
    by_cases hk : k' = k
    · simpa [delete, List.filter_cons, hk] using ih
    · simp only [delete, List.filter_cons, hk, decide_False, Bool.not_false, if_true, get]
      simpa [delete] using ih

theorem get_delete_ne {α : Type} (m : JsMap α) {k k' : Snowflake} (h : k' ≠ k) :
    get (delete m k) k' = get m k' := by
  induction m with
  | nil => simp [delete, get]
  | cons e m ih =>
    obtain ⟨k'', v''⟩ := e
    by_cases hk : k'' = k
    · subst hk
      simp only [delete, List.filter_cons, decide_True, Bool.not_true, get, Ne.symm h, if_false]
      simpa [delete] using ih
    · simp only [delete, List.filter_cons, hk, decide_False, Bool.not_false, if_true, get]
      by_cases hk' : k'' = k'
      · simp [hk']
      · simp only [hk', if_false]
        simpa [delete] using ih

theorem delete_delete {α : Type} (m : JsMap α) (k : Snowflake) :
    delete (delete m k) k = delete m k := by
  simp [delete, List.filter_filter]

theorem delete_of_get_none {α : Type} (m : JsMap α) (k : Snowflake) (h : get m k = none) :
    delete m k = m := by
  induction m with
  | nil => simp [delete]
  | cons e m ih =>
    obtain ⟨k', v'⟩ := e
    by_cases hk : k' = k
    · simp [get, hk] at h
    · simp only [get, hk, if_false] at h
      simp only [delete, List.filter_cons, hk, decide_False, Bool.not_false, if_true]
      congr 1
      exact ih h

end JsMap

/-! ## Lemmas: quiet hours with the constants of the source -/

theorem currentHour_ge_start (now : DateTime) :
    currentHour now ≥ source.QUIET_HOURS_START ↔ 1320 ≤ 60 * now.hour + now.minute := by
  have h60 : (0 : ℚ) < 60 := by norm_num
  simp only [currentHour, source, QUIET_HOURS_START, ge_iff_le]
  constructor
  · intro h
    have h2 : ((1320 : ℕ) : ℚ) ≤ ((60 * now.hour + now.minute : ℕ) : ℚ) := by
      push_cast
      have := mul_le_mul_of_nonneg_left h h60.le
      have e : (60 : ℚ) * ((now.hour : ℚ) + (now.minute : ℚ) / 60) =
          60 * (now.hour : ℚ) + (now.minute : ℚ) := by ring
      rw [e] at this
      linarith
    exact_mod_cast h2
  · intro h
    have h2 : ((1320 : ℕ) : ℚ) ≤ ((60 * now.hour + now.minute : ℕ) : ℚ) := by exact_mod_cast h
    push_cast at h2
    have e : (now.hour : ℚ) + (now.minute : ℚ) / 60 =
        (60 * (now.hour : ℚ) + (now.minute : ℚ)) / 60 := by ring
    rw [e, le_div_iff₀ h60]
    linarith

theorem currentHour_lt_end (now : DateTime) :
    currentHour now < source.QUIET_HOURS_END ↔ 60 * now.hour + now.minute < 450 := by
  have h60 : (0 : ℚ) < 60 := by norm_num
  simp only [currentHour, source, QUIET_HOURS_END]
  constructor
  · intro h
    have h2 : ((60 * now.hour + now.minute : ℕ) : ℚ) < ((450 : ℕ) : ℚ) := by
      push_cast
      have := mul_lt_mul_of_pos_left h h60
      have e : (60 : ℚ) * ((now.hour : ℚ) + (now.minute : ℚ) / 60) =
          60 * (now.hour : ℚ) + (now.minute : ℚ) := by ring
      rw [e] at this
      linarith
    exact_mod_cast h2
  · intro h
    have h2 : ((60 * now.hour + now.minute : ℕ) : ℚ) < ((450 : ℕ) : ℚ) := by exact_mod_cast h
    push_cast at h2
    have e : (now.hour : ℚ) + (now.minute : ℚ) / 60 =
        (60 * (now.hour : ℚ) + (now.minute : ℚ)) / 60 := by ring
    rw [e, div_lt_iff₀ h60]
    linarith

/-- The quiet-hours test of the source in whole minutes. -/
theorem inQuietHours_source (now : DateTime) :
    inQuietHours source now =
      (decide (1320 ≤ 60 * now.hour + now.minute) ||
        decide (60 * now.hour + now.minute < 450)) := by
  have h1 := currentHour_ge_start now
  have h2 := currentHour_lt_end now
  simp only [inQuietHours, decide_eq_decide.mpr h1, decide_eq_decide.mpr h2]
  simp [source, ENABLE_QUIET_HOURS]

/-- The choice of the day of `tomorrowMorning` in whole hours. -/
theorem tomorrowMorning_source (now : DateTime) :
    tomorrowMorning source now =
      if 22 ≤ now.hour then (now.plusDays 1).set 7 30 0 0 else now.set 7 30 0 0 := by
  have h : ((now.hour : ℚ) ≥ source.QUIET_HOURS_START) ↔ 22 ≤ now.hour := by
    simp only [source, QUIET_HOURS_START, ge_iff_le]
    exact_mod_cast Iff.rfl
  simp only [tomorrowMorning, h]


/-! ## Lemmas: the operations -/

theorem remindAll_fold (cfg : Config) (reminder : Reminder) (users : JsMap User)
    (acc : Nat × List Delivery) :
    users.foldl (fun acc e => remindUser cfg reminder acc e.2) acc =
      (acc.1 + ((users.filter (fun e => eligible cfg reminder e.2)).map
          (fun e => (⟨reminder.uid, e.2, (reminder.reminderCounts.get e.2.id).getD 0⟩ :
            Delivery))).length,
        acc.2 ++ (users.filter (fun e => eligible cfg reminder e.2)).map
          (fun e => (⟨reminder.uid, e.2, (reminder.reminderCounts.get e.2.id).getD 0⟩ :
            Delivery))) := by
  induction users generalizing acc with
  | nil => simp
  | cons e users ih =>
    rw [List.foldl_cons, ih]
    by_cases h1 : reminder.usersReplied.has e.2.id = true
    · simp [remindUser, eligible, h1, List.filter_cons]
    · by_cases h2 : (reminder.reminderCounts.get e.2.id).getD 0 < cfg.MAX_REMINDERS
      · simp [remindUser, eligible, h1, h2, List.filter_cons, Nat.add_assoc, Nat.add_comm]
      · simp [remindUser, eligible, h1, h2, List.filter_cons]

/-- The loop of `sendReminders` counts and sends to the eligible recipients. -/
theorem remindAll_eq (cfg : Config) (reminder : Reminder) :
    remindAll cfg reminder = ((calls cfg reminder).length, calls cfg reminder) := by
  unfold remindAll calls
  rw [remindAll_fold]
  simp

theorem mem_calls {cfg : Config} {reminder : Reminder} {d : Delivery} :
    d ∈ calls cfg reminder ↔
      ∃ e ∈ reminder.mentionedUsers, eligible cfg reminder e.2 = true ∧
        d = ⟨reminder.uid, e.2, (reminder.reminderCounts.get e.2.id).getD 0⟩ := by
  unfold calls
  simp only [List.mem_map, List.mem_filter]
  constructor
  · rintro ⟨e, ⟨he, hel⟩, rfl⟩
    exact ⟨e, he, hel, rfl⟩
  · rintro ⟨e, he, hel, rfl⟩
    exact ⟨e, ⟨he, hel⟩, rfl⟩

theorem calls_count_lt {cfg : Config} {reminder : Reminder} {d : Delivery}
    (h : d ∈ calls cfg reminder) : d.reminderCount < cfg.MAX_REMINDERS := by
  obtain ⟨e, _, hel, rfl⟩ := mem_calls.mp h
  simp only [eligible, Bool.and_eq_true, decide_eq_true_eq] at hel
  exact hel.2

/-- The record registered by `sendReminders` in its three branches. -/
theorem sendReminders_quiet {cfg : Config} {s : ReminderManager} {messageId : Snowflake}
    {now : DateTime} {reminder : Reminder}
    (hr : s.reminderData.get messageId = some reminder) (hq : inQuietHours cfg now = true) :
    sendReminders cfg s messageId now = (setTimeout s messageId (waitTime cfg now)).1 := by
  simp [sendReminders, hr, hq]

theorem sendReminders_active {cfg : Config} {s : ReminderManager} {messageId : Snowflake}
    {now : DateTime} {reminder : Reminder}
    (hr : s.reminderData.get messageId = some reminder) (hq : inQuietHours cfg now = false) :
    sendReminders cfg s messageId now =
      if (calls cfg reminder).length = 0 then
        cleanupReminder { s with pending := s.pending ++ calls cfg reminder,
                                 sent := s.sent ++ calls cfg reminder } messageId
      else
        startReminderLoop cfg { s with pending := s.pending ++ calls cfg reminder,
                                       sent := s.sent ++ calls cfg reminder } messageId := by
  simp [sendReminders, hr, hq, remindAll_eq]

/-! ## Lemmas: the invariant -/

theorem initialCounts_fold_zero (users : JsMap User) (acc : JsMap Nat)
    (hacc : ∀ e ∈ acc, e.2 = 0) :
    ∀ e ∈ users.foldl (fun counts e => counts.set e.2.id 0) acc, e.2 = 0 := by
  induction users generalizing acc with
  | nil => simpa using hacc
  | cons u users ih =>
    rw [List.foldl_cons]
    apply ih
    intro e he
    rcases JsMap.mem_set he with h | h
    · rw [h]
    · exact hacc e h

theorem initialCounts_fold_get (users : JsMap User) (acc : JsMap Nat) :
    (∀ id, acc.get id = some 0 →
        (users.foldl (fun counts e => counts.set e.2.id 0) acc).get id = some 0) ∧
      ∀ e ∈ users, (users.foldl (fun counts e => counts.set e.2.id 0) acc).get e.2.id = some 0 := by
  induction users generalizing acc with
  | nil => simp
  | cons u users ih =>
    have keep : ∀ id, acc.get id = some 0 → (acc.set u.2.id 0).get id = some 0 := by
      intro id h
      by_cases hid : id = u.2.id
      · rw [hid, JsMap.get_set_self]
      · rw [JsMap.get_set_ne acc 0 hid]; exact h
    refine ⟨?_, ?_⟩
    · intro id h
      rw [List.foldl_cons]
      exact (ih (acc.set u.2.id 0)).1 id (keep id h)
    · intro e he
      rw [List.foldl_cons]
      rcases List.mem_cons.mp he with h | h
      · rw [h]
        exact (ih (acc.set u.2.id 0)).1 u.2.id (JsMap.get_set_self acc u.2.id 0)
      · exact (ih (acc.set u.2.id 0)).2 e h

/-- Every entry written by `createReminder` is 0. -/
theorem initialCounts_zero (users : JsMap User) : ∀ e ∈ initialCounts users, e.2 = 0 :=
  initialCounts_fold_zero users [] (by simp)

/-- The method `createReminder` writes the entry 0 for every recipient. -/
theorem initialCounts_get (users : JsMap User) :
    ∀ e ∈ users, (initialCounts users).get e.2.id = some 0 :=
  (initialCounts_fold_get users []).2

theorem inv_new (cfg : Config) : Inv cfg ReminderManager.new := by
  simp [Inv, ReminderManager.new]

theorem inv_of_eq {cfg : Config} {s t : ReminderManager} (h : Inv cfg s)
    (hd : t.reminderData = s.reminderData) (hp : t.pending = s.pending) : Inv cfg t := by
  unfold Inv at *
  rw [hd, hp]
  exact h

theorem inv_startReminderLoop {cfg : Config} {s : ReminderManager} (h : Inv cfg s)
    (messageId : Snowflake) : Inv cfg (startReminderLoop cfg s messageId) := by
  unfold startReminderLoop
  cases hr : s.reminderData.get messageId with
  | none => exact h
  | some reminder =>
    refine ⟨?_, h.2⟩
    intro e he
    simp only [setTimeout] at he
    rcases JsMap.mem_set he with h1 | h1
    · rw [h1]
      exact h.1 (messageId, reminder) (JsMap.mem_of_get hr)
    · exact h.1 e h1

theorem inv_cleanupReminder {cfg : Config} {s : ReminderManager} (h : Inv cfg s)
    (messageId : Snowflake) : Inv cfg (cleanupReminder s messageId) := by
  unfold cleanupReminder
  cases hr : s.reminderData.get messageId with
  | none => exact h
  | some reminder =>
    have hc : (clearTimeout s reminder.reminderTimeout).reminderData = s.reminderData ∧
        (clearTimeout s reminder.reminderTimeout).pending = s.pending := by
      unfold clearTimeout
      cases reminder.reminderTimeout <;> simp
    refine ⟨?_, ?_⟩
    · intro e he
      have := JsMap.mem_delete he
      rw [hc.1] at this
      exact h.1 e this
    · intro d hd
      simp only [hc.2] at hd
      exact h.2 d hd

theorem inv_createReminder {cfg : Config} {s : ReminderManager} (h : Inv cfg s)
    (message : Message) (mentionedUsers : JsMap User) (now : Nat) :
    Inv cfg (createReminder cfg s message mentionedUsers now) := by
  unfold createReminder
  apply inv_startReminderLoop
  refine ⟨?_, h.2⟩
  intro e he
  rcases JsMap.mem_set he with h1 | h1
  · rw [h1]
    refine ⟨?_, ?_⟩
    · intro c hc
      have := initialCounts_zero mentionedUsers c hc
      simp only at this ⊢
      omega
    · intro u hu
      simp [initialCounts_get mentionedUsers u hu]
  · exact h.1 e h1

theorem inv_handleEveryoneMention {cfg : Config} {s : ReminderManager} (h : Inv cfg s)
    (message : Message) (botId : Snowflake) (now : Nat) :
    Inv cfg (handleEveryoneMention cfg s message botId now) := by
  unfold handleEveryoneMention
  cases guildMembers message with
  | none => exact h
  | some members => exact inv_createReminder h _ _ _

theorem inv_sendReminders {cfg : Config} {s : ReminderManager} (h : Inv cfg s)
    (messageId : Snowflake) (now : DateTime) : Inv cfg (sendReminders cfg s messageId now) := by
  cases hr : s.reminderData.get messageId with
  | none => simpa [sendReminders, hr] using h
  | some reminder =>
    cases hq : inQuietHours cfg now with
    | true =>
      rw [sendReminders_quiet hr hq]
      exact inv_of_eq h rfl rfl
    | false =>
      rw [sendReminders_active hr hq]
      have h1 : Inv cfg { s with pending := s.pending ++ calls cfg reminder,
                                 sent := s.sent ++ calls cfg reminder } := by
        refine ⟨h.1, ?_⟩
        intro d hd
        rcases List.mem_append.mp hd with hd | hd
        · exact h.2 d hd
        · exact calls_count_lt hd
      split
      · exact inv_cleanupReminder h1 messageId
      · exact inv_startReminderLoop h1 messageId

theorem inv_updateRecord {cfg : Config} {s : ReminderManager} (h : Inv cfg s) (uid : Nat)
    (f : Reminder → Reminder) (hf : ∀ r, r.CountsOk cfg → (f r).CountsOk cfg) :
    Inv cfg (updateRecord s uid f) := by
  refine ⟨?_, h.2⟩
  intro e he
  simp only [updateRecord, List.mem_map] at he
  obtain ⟨e0, he0, rfl⟩ := he
  by_cases hu : e0.2.uid = uid
  · simp only [hu, if_true]
    exact hf _ (h.1 e0 he0)
  · simp only [hu, if_false]
    exact h.1 e0 he0

theorem inv_sendSettled {cfg : Config} {s : ReminderManager} (h : Inv cfg s) (d : Delivery)
    (ok : Bool) : Inv cfg (sendSettled s d ok) := by
  unfold sendSettled
  by_cases hd : d ∈ s.pending
  · simp only [hd, if_true]
    have h1 : Inv cfg { s with pending := s.pending.erase d } :=
      ⟨h.1, fun d' hd' => h.2 d' (List.mem_of_mem_erase hd')⟩
    cases ok with
    | false => simpa using h1
    | true =>
      simp only [if_true]
      apply inv_updateRecord h1
      intro r hr
      refine ⟨?_, ?_⟩
      · intro c hc
        rcases JsMap.mem_set hc with h2 | h2
        · rw [h2]
          exact h.2 d hd
        · exact hr.1 c h2
      · intro u hu
        exact JsMap.get_set_isSome _ _ _ _ (hr.2 u hu)
  · simpa [hd] using h

theorem inv_collect {cfg : Config} {s : ReminderManager} (h : Inv cfg s) (uid : Nat)
    (userId : Snowflake) : Inv cfg (collect s uid userId) := by
  unfold collect
  apply inv_updateRecord h
  intro r hr
  split
  · exact hr
  · exact hr

theorem inv_fire {cfg : Config} {s : ReminderManager} (h : Inv cfg s) (handle : Nat)
    (now : DateTime) : Inv cfg (fire cfg s handle now) := by
  unfold fire
  split
  · exact h
  · apply inv_sendReminders
    exact ⟨h.1, h.2⟩

theorem inv_step {cfg : Config} {s : ReminderManager} (h : Inv cfg s) (ev : Event) :
    Inv cfg (step cfg s ev) := by
  cases ev with
  | createReminder message mentionedUsers now => exact inv_createReminder h _ _ _
  | handleEveryoneMention message botId now => exact inv_handleEveryoneMention h _ _ _
  | timeout handle now => exact inv_fire h _ _
  | settled d ok => exact inv_sendSettled h _ _
  | collect uid userId => exact inv_collect h _ _

theorem inv_foldl {cfg : Config} (events : List Event) {s : ReminderManager} (h : Inv cfg s) :
    Inv cfg (events.foldl (step cfg) s) := by
  induction events generalizing s with
  | nil => exact h
  | cons ev events ih => exact ih (inv_step h ev)

/-- The invariant holds in every state of every run. -/
theorem inv_run (cfg : Config) (events : List Event) : Inv cfg (run cfg events) :=
  inv_foldl events (inv_new cfg)


/-! ## Lemmas: concrete runs -/

theorem source_max : source.MAX_REMINDERS = 5 := rfl

theorem source_interval : source.REMINDER_INTERVAL = 5000 := rfl

theorem noon_active : inQuietHours source noon = false := by
  rw [inQuietHours_source]; decide

theorem run_append (cfg : Config) (events : List Event) (ev : Event) :
    run cfg (events ++ [ev]) = step cfg (run cfg events) ev := by
  simp [run, List.foldl_append]

/-- The state at the end of `sampleRun`. -/
theorem run_sampleRun :
    run source sampleRun =
      { reminderData := [(10, sampleRecord)]
        timers := [⟨1, 10, 5000⟩]
        nextHandle := 2
        nextUid := 1
        pending := [⟨0, bob, 0⟩]
        sent := [⟨0, alice, 0⟩, ⟨0, bob, 0⟩] } := by
  simp [run, sampleRun, sampleRecord, step, fire, createReminder, startReminderLoop, setTimeout,
    ReminderManager.new, JsMap.get, JsMap.set, sampleMessage, initialCounts, alice, bob,
    sendReminders, noon_active, remindAll, remindUser, JsSet.has, source_max,
    source_interval, sendSettled, updateRecord, collect, JsMap.has, JsSet.add]

/-! ## Lemmas: one cycle -/

theorem calls_eq_nil_iff (cfg : Config) (reminder : Reminder) :
    calls cfg reminder = [] ↔ ∀ e ∈ reminder.mentionedUsers, eligible cfg reminder e.2 = false := by
  unfold calls
  simp only [List.map_eq_nil_iff, List.filter_eq_nil_iff]
  constructor
  · intro h e he
    simpa using h e he
  · intro h e he
    simp [h e he]

/-- With the counts in order, a recipient is not eligible exactly when acknowledged or
at the cap. -/
theorem not_eligible_iff {cfg : Config} {reminder : Reminder} (hc : reminder.CountsOk cfg)
    {e : Snowflake × User} (he : e ∈ reminder.mentionedUsers) :
    eligible cfg reminder e.2 = false ↔
      (reminder.usersReplied.has e.2.id = true ∨
        reminder.reminderCounts.get e.2.id = some cfg.MAX_REMINDERS) := by
  have hs := hc.2 e he
  cases hget : reminder.reminderCounts.get e.2.id with
  | none => simp [hget] at hs
  | some n =>
    have hn : n ≤ cfg.MAX_REMINDERS := hc.1 (e.2.id, n) (JsMap.mem_of_get hget)
    cases hh : reminder.usersReplied.has e.2.id with
    | true => simp [eligible, hh]
    | false =>
      simp only [eligible, hh, hget, Option.getD_some, Bool.not_false, Bool.true_and,
        decide_eq_false_iff_not, Nat.not_lt, false_or, Option.some.injEq, Bool.false_eq_true]
      omega

theorem clearTimeout_fields (s : ReminderManager) (h : Option Nat) :
    (clearTimeout s h).reminderData = s.reminderData ∧
      (clearTimeout s h).pending = s.pending ∧ (clearTimeout s h).sent = s.sent := by
  cases h <;> exact ⟨rfl, rfl, rfl⟩

theorem cleanupReminder_get_self (s : ReminderManager) (messageId : Snowflake) :
    (cleanupReminder s messageId).reminderData.get messageId = none := by
  unfold cleanupReminder
  cases hr : s.reminderData.get messageId with
  | none => simpa using hr
  | some reminder =>
    have hc : (clearTimeout s reminder.reminderTimeout).reminderData = s.reminderData := by
      unfold clearTimeout
      cases reminder.reminderTimeout <;> simp
    simp only [hc]
    exact JsMap.get_delete_self _ _

theorem cleanupReminder_sent (s : ReminderManager) (messageId : Snowflake) :
    (cleanupReminder s messageId).sent = s.sent ∧
      (cleanupReminder s messageId).pending = s.pending := by
  unfold cleanupReminder
  cases hr : s.reminderData.get messageId with
  | none => simp
  | some reminder =>
    exact ⟨(clearTimeout_fields s _).2.2, (clearTimeout_fields s _).2.1⟩

theorem startReminderLoop_of_get {cfg : Config} {s : ReminderManager} {messageId : Snowflake}
    {reminder : Reminder} (hr : s.reminderData.get messageId = some reminder) :
    startReminderLoop cfg s messageId =
      { s with
        reminderData :=
          s.reminderData.set messageId { reminder with reminderTimeout := some s.nextHandle }
        timers := s.timers ++ [⟨s.nextHandle, messageId, cfg.REMINDER_INTERVAL⟩]
        nextHandle := s.nextHandle + 1 } := by
  simp [startReminderLoop, hr, setTimeout]

/-- The timer event on a registered record outside quiet hours. -/
theorem fire_active {cfg : Config} {s : ReminderManager} {handle : Nat} {t : Timer}
    {now : DateTime} {reminder : Reminder}
    (ht : s.timers.find? (fun t => decide (t.handle = handle)) = some t)
    (hr : s.reminderData.get t.messageId = some reminder)
    (hq : inQuietHours cfg now = false) :
    fire cfg s handle now =
      if (calls cfg reminder).length = 0 then
        cleanupReminder
          { s with timers := s.timers.filter (fun t => !decide (t.handle = handle))
                   pending := s.pending ++ calls cfg reminder
                   sent := s.sent ++ calls cfg reminder } t.messageId
      else
        startReminderLoop cfg
          { s with timers := s.timers.filter (fun t => !decide (t.handle = handle))
                   pending := s.pending ++ calls cfg reminder
                   sent := s.sent ++ calls cfg reminder } t.messageId := by
  unfold fire
  simp only [ht]
  have hr' : ({ s with timers := s.timers.filter (fun t => !decide (t.handle = handle)) } :
      ReminderManager).reminderData.get t.messageId = some reminder := hr
  exact sendReminders_active hr' hq


/-! ## Lemmas: the quiet window -/

theorem inQuietHours_of_window {now : DateTime} (hv : now.Valid) (hq : InQuietWindow now) :
    inQuietHours source now = true := by
  obtain ⟨_, hm, _, _⟩ := hv
  rw [inQuietHours_source]
  unfold InQuietWindow at hq
  simp only [Bool.or_eq_true, decide_eq_true_eq]
  omega

theorem inQuietHours_of_day {now : DateTime} (hv : now.Valid) (hd : InDayWindow now) :
    inQuietHours source now = false := by
  obtain ⟨_, hm, _, _⟩ := hv
  rw [inQuietHours_source]
  unfold InDayWindow at hd
  simp only [Bool.or_eq_false_iff, decide_eq_false_iff_not]
  omega

theorem clockUntilSevenThirty_bounds {now : DateTime} (hv : now.Valid)
    (hq : InQuietWindow now) :
    0 < clockUntilSevenThirty now ∧ clockUntilSevenThirty now ≤ 34200000 := by
  obtain ⟨hh, hm, hs, hms⟩ := hv
  unfold InQuietWindow at hq
  unfold clockUntilSevenThirty msOfDay
  split <;> constructor <;> omega

/-- The delay of a deferred cycle is the elapsed time to the next 07:30 in the zone. -/
theorem waitTime_source {now : DateTime} (hv : now.Valid) (hq : InQuietWindow now) :
    waitTime source now = untilNextSevenThirty now := by
  obtain ⟨hh, hm, hs, hms⟩ := hv
  unfold InQuietWindow at hq
  unfold waitTime
  rw [tomorrowMorning_source]
  by_cases h22 : 22 ≤ now.hour
  · have hlt : ¬ msOfDay now < 27000000 := by
      unfold msOfDay; omega
    unfold untilNextSevenThirty clockUntilSevenThirty offsetAtSevenThirty
    rw [if_neg hlt, if_neg hlt]
    simp only [h22, if_true, DateTime.diff, DateTime.toMillis, DateTime.set,
      DateTime.plusDays, msOfDay]
    push_cast
    ring
  · have hlt : msOfDay now < 27000000 := by
      unfold msOfDay; omega
    unfold untilNextSevenThirty clockUntilSevenThirty offsetAtSevenThirty
    rw [if_pos hlt, if_pos hlt]
    simp only [h22, if_false, DateTime.diff, DateTime.toMillis, DateTime.set, msOfDay]
    ring

/-- The sends of a cycle outside quiet hours. -/
theorem sendReminders_active_sent {cfg : Config} {s : ReminderManager} {messageId : Snowflake}
    {now : DateTime} {reminder : Reminder}
    (hr : s.reminderData.get messageId = some reminder) (hq : inQuietHours cfg now = false) :
    (sendReminders cfg s messageId now).sent = s.sent ++ calls cfg reminder ∧
      (sendReminders cfg s messageId now).pending = s.pending ++ calls cfg reminder := by
  have hr' : ({ s with pending := s.pending ++ calls cfg reminder,
                       sent := s.sent ++ calls cfg reminder } :
      ReminderManager).reminderData.get messageId = some reminder := hr
  rw [sendReminders_active hr hq]
  split
  · exact ⟨(cleanupReminder_sent _ _).1, (cleanupReminder_sent _ _).2⟩
  · rw [startReminderLoop_of_get hr']
    exact ⟨rfl, rfl⟩

/-- A cycle outside quiet hours with nobody eligible is `cleanupReminder`. -/
theorem sendReminders_active_retire {cfg : Config} {s : ReminderManager}
    {messageId : Snowflake} {now : DateTime} {reminder : Reminder}
    (hr : s.reminderData.get messageId = some reminder) (hq : inQuietHours cfg now = false)
    (hc : calls cfg reminder = []) :
    sendReminders cfg s messageId now = cleanupReminder s messageId := by
  rw [sendReminders_active hr hq]
  simp [hc]

/-- A cycle outside quiet hours with somebody eligible: the record keeps everything but
its timer handle, and one timer is added. -/
theorem sendReminders_active_resched {cfg : Config} {s : ReminderManager}
    {messageId : Snowflake} {now : DateTime} {reminder : Reminder}
    (hr : s.reminderData.get messageId = some reminder) (hq : inQuietHours cfg now = false)
    (hc : calls cfg reminder ≠ []) :
    (sendReminders cfg s messageId now).reminderData =
        s.reminderData.set messageId { reminder with reminderTimeout := some s.nextHandle } ∧
      (sendReminders cfg s messageId now).timers =
        s.timers ++ [⟨s.nextHandle, messageId, cfg.REMINDER_INTERVAL⟩] := by
  have hr' : ({ s with pending := s.pending ++ calls cfg reminder,
                       sent := s.sent ++ calls cfg reminder } :
      ReminderManager).reminderData.get messageId = some reminder := hr
  have hlen : (calls cfg reminder).length ≠ 0 := by
    simpa [List.length_eq_zero] using hc
  rw [sendReminders_active hr hq]
  simp only [hlen, if_false]
  rw [startReminderLoop_of_get hr']
  exact ⟨rfl, rfl⟩


/-! ## Lemmas: record identity -/

theorem JsMap.set_cases {α : Type} (m : JsMap α) (k : Snowflake) (v : α) :
    (JsMap.get m k = none ∧ JsMap.set m k v = m ++ [(k, v)]) ∨
      ∃ l1 v0 l2, m = l1 ++ (k, v0) :: l2 ∧ JsMap.get m k = some v0 ∧
        JsMap.set m k v = l1 ++ (k, v) :: l2 := by
  induction m with
  | nil => left; simp [JsMap.get, JsMap.set]
  | cons e m ih =>
    obtain ⟨k', v'⟩ := e
    by_cases hk : k' = k
    · subst hk
      right
      exact ⟨[], v', m, by simp, by simp [JsMap.get], by simp [JsMap.set]⟩
    · rcases ih with ⟨h1, h2⟩ | ⟨l1, v0, l2, h1, h2, h3⟩
      · left
        simp [JsMap.get, JsMap.set, hk, h1, h2]
      · right
        refine ⟨(k', v') :: l1, v0, l2, by simp [h1], by simp [JsMap.get, hk, h2], ?_⟩
        simp [JsMap.set, hk, h3]

theorem uidInv_new : UidInv ReminderManager.new := by
  simp [UidInv, ReminderManager.new]

theorem uidInv_of_eq {s t : ReminderManager} (h : UidInv s)
    (hd : t.reminderData = s.reminderData) (hn : t.nextUid = s.nextUid) : UidInv t := by
  unfold UidInv at *
  rw [hd, hn]
  exact h

/-- Replacing a registered record by one of the same identity keeps the identities. -/
theorem map_uid_set_same {m : JsMap Reminder} {k : Snowflake} {r r' : Reminder}
    (hr : m.get k = some r) (hu : r'.uid = r.uid) :
    (JsMap.set m k r').map (fun e => e.2.uid) = m.map (fun e => e.2.uid) := by
  rcases JsMap.set_cases m k r' with ⟨h1, _⟩ | ⟨l1, v0, l2, h1, h2, h3⟩
  · rw [h1] at hr; cases hr
  · rw [h2] at hr
    cases hr
    rw [h3]
    conv_rhs => rw [h1]
    simp [hu]

theorem uidInv_set_same {s : ReminderManager} (h : UidInv s) {k : Snowflake} {r r' : Reminder}
    (hr : s.reminderData.get k = some r) (hu : r'.uid = r.uid) (t : ReminderManager)
    (hd : t.reminderData = s.reminderData.set k r') (hn : t.nextUid = s.nextUid) :
    UidInv t := by
  refine ⟨?_, ?_⟩
  · rw [hd, map_uid_set_same hr hu]
    exact h.1
  · intro e he
    rw [hd] at he
    rw [hn]
    rcases JsMap.mem_set he with h1 | h1
    · rw [h1]
      simp only [hu]
      exact h.2 (k, r) (JsMap.mem_of_get hr)
    · exact h.2 e h1

theorem uidInv_startReminderLoop {cfg : Config} {s : ReminderManager} (h : UidInv s)
    (messageId : Snowflake) : UidInv (startReminderLoop cfg s messageId) := by
  cases hr : s.reminderData.get messageId with
  | none => simpa [startReminderLoop, hr] using h
  | some reminder =>
    rw [startReminderLoop_of_get hr]
    exact @uidInv_set_same s h messageId reminder
      { reminder with reminderTimeout := some s.nextHandle } hr rfl _ rfl rfl

theorem uidInv_cleanupReminder {s : ReminderManager} (h : UidInv s) (messageId : Snowflake) :
    UidInv (cleanupReminder s messageId) := by
  unfold cleanupReminder
  cases hr : s.reminderData.get messageId with
  | none => exact h
  | some reminder =>
    have hc := (clearTimeout_fields s reminder.reminderTimeout).1
    have hn : (clearTimeout s reminder.reminderTimeout).nextUid = s.nextUid := by
      cases reminder.reminderTimeout <;> rfl
    refine ⟨?_, ?_⟩
    · simp only [hc]
      exact h.1.sublist ((List.filter_sublist _).map _)
    · intro e he
      simp only [hc] at he
      simp only [hn]
      exact h.2 e (JsMap.mem_delete he)

theorem uidInv_createReminder {cfg : Config} {s : ReminderManager} (h : UidInv s)
    (message : Message) (mentionedUsers : JsMap User) (now : Nat) :
    UidInv (createReminder cfg s message mentionedUsers now) := by
  unfold createReminder
  apply uidInv_startReminderLoop
  have hfresh : s.nextUid ∉ s.reminderData.map (fun e => e.2.uid) := by
    intro hmem
    obtain ⟨e, he, heq⟩ := List.mem_map.mp hmem
    have := h.2 e he
    omega
  refine ⟨?_, ?_⟩
  · simp only
    rcases JsMap.set_cases s.reminderData message.id
        { uid := s.nextUid, message := message, mentionedUsers := mentionedUsers,
          usersReplied := [], reminderCounts := initialCounts mentionedUsers,
          channel := message.channel, reminderTimeout := none, createdAt := now } with
      ⟨_, h2⟩ | ⟨l1, v0, l2, h1, _, h3⟩
    · rw [h2]
      simp only [List.map_append, List.map_cons, List.map_nil]
      exact List.Nodup.append h.1 (List.nodup_singleton _)
        (List.disjoint_singleton.mpr hfresh)
    · rw [h3]
      have hn := h.1
      rw [h1] at hn hfresh
      simp only [List.map_append, List.map_cons, List.mem_append, List.mem_cons, not_or]
        at hn hfresh ⊢
      rw [List.nodup_append] at hn ⊢
      obtain ⟨hn1, hn2, hn3⟩ := hn
      rw [List.nodup_cons] at hn2 ⊢
      refine ⟨hn1, ⟨hfresh.2.2, hn2.2⟩, ?_⟩
      intro a ha1 ha2
      rcases List.mem_cons.mp ha2 with ha | ha
      · exact hfresh.1 (ha ▸ ha1)
      · exact hn3 ha1 (List.mem_cons_of_mem _ ha)
  · intro e he
    simp only at he ⊢
    rcases JsMap.mem_set he with h1 | h1
    · rw [h1]
      simp
    · have := h.2 e h1
      omega

theorem uidInv_updateRecord {s : ReminderManager} (h : UidInv s) (uid : Nat)
    (f : Reminder → Reminder) (hf : ∀ r, (f r).uid = r.uid) : UidInv (updateRecord s uid f) := by
  have hmap : (updateRecord s uid f).reminderData.map (fun e => e.2.uid) =
      s.reminderData.map (fun e => e.2.uid) := by
    simp only [updateRecord, List.map_map]
    apply List.map_congr_left
    intro e _
    by_cases hu : e.2.uid = uid
    · simp [hu, hf]
    · simp [hu]
  refine ⟨by rw [hmap]; exact h.1, ?_⟩
  intro e he
  simp only [updateRecord, List.mem_map] at he
  obtain ⟨e0, he0, rfl⟩ := he
  by_cases hu : e0.2.uid = uid
  · simp only [hu, if_true, hf]
    have := h.2 e0 he0
    rw [hu] at this
    exact this
  · simp only [hu, if_false]
    exact h.2 e0 he0

theorem uidInv_sendReminders {cfg : Config} {s : ReminderManager} (h : UidInv s)
    (messageId : Snowflake) (now : DateTime) : UidInv (sendReminders cfg s messageId now) := by
  cases hr : s.reminderData.get messageId with
  | none => simpa [sendReminders, hr] using h
  | some reminder =>
    cases hq : inQuietHours cfg now with
    | true =>
      rw [sendReminders_quiet hr hq]
      exact uidInv_of_eq h rfl rfl
    | false =>
      rw [sendReminders_active hr hq]
      split
      · apply uidInv_cleanupReminder
        exact ⟨h.1, h.2⟩
      · apply uidInv_startReminderLoop
        exact ⟨h.1, h.2⟩

theorem uidInv_step {cfg : Config} {s : ReminderManager} (h : UidInv s) (ev : Event) :
    UidInv (step cfg s ev) := by
  cases ev with
  | createReminder message mentionedUsers now => exact uidInv_createReminder h _ _ _
  | handleEveryoneMention message botId now =>
    simp only [step, handleEveryoneMention]
    cases guildMembers message with
    | none => exact h
    | some members => exact uidInv_createReminder h _ _ _
  | timeout handle now =>
    simp only [step, fire]
    split
    · exact h
    · apply uidInv_sendReminders
      exact ⟨h.1, h.2⟩
  | settled d ok =>
    simp only [step, sendSettled]
    split
    · cases ok with
      | false => exact ⟨h.1, h.2⟩
      | true =>
        simp only [if_true]
        apply uidInv_updateRecord
        · exact ⟨h.1, h.2⟩
        · intro r; rfl
    · exact h
  | collect uid userId =>
    simp only [step, collect]
    apply uidInv_updateRecord h
    intro r
    split <;> rfl

theorem uidInv_foldl {cfg : Config} (events : List Event) {s : ReminderManager}
    (h : UidInv s) : UidInv (events.foldl (step cfg) s) := by
  induction events generalizing s with
  | nil => exact h
  | cons ev events ih => exact ih (uidInv_step h ev)

/-- Record identities are distinct in every state of every run. -/
theorem uidInv_run (cfg : Config) (events : List Event) : UidInv (run cfg events) :=
  uidInv_foldl events uidInv_new

/-! ## Lemmas: acknowledgment is final -/

theorem JsSet.has_add {s : JsSet} {k : Snowflake} (k' : Snowflake) (h : JsSet.has s k = true) :
    JsSet.has (JsSet.add s k') k = true := by
  unfold JsSet.has JsSet.add at *
  simp only [decide_eq_true_eq] at h ⊢
  split
  · exact h
  · exact List.mem_append_left _ h

theorem sentTo_append (l1 l2 : List Delivery) (uid : Nat) (userId : Snowflake) :
    sentTo (l1 ++ l2) uid userId = sentTo l1 uid userId ++ sentTo l2 uid userId := by
  simp [sentTo]

/-- A cycle sends nothing to an acknowledged user of its record. -/
theorem calls_not_replied {cfg : Config} {reminder : Reminder} {d : Delivery}
    (hd : d ∈ calls cfg reminder) :
    d.record = reminder.uid ∧ reminder.usersReplied.has d.user.id = false := by
  obtain ⟨e, _, hel, rfl⟩ := mem_calls.mp hd
  simp only [eligible, Bool.and_eq_true, Bool.not_eq_true', decide_eq_true_eq] at hel
  exact ⟨rfl, hel.1⟩

theorem sentTo_calls {cfg : Config} {reminder : Reminder} {uid : Nat} {userId : Snowflake}
    (h : reminder.uid = uid → reminder.usersReplied.has userId = true) :
    sentTo (calls cfg reminder) uid userId = [] := by
  unfold sentTo
  rw [List.filter_eq_nil_iff]
  intro d hd
  obtain ⟨h1, h2⟩ := calls_not_replied hd
  simp only [Bool.and_eq_true, decide_eq_true_eq, not_and]
  intro hu hid
  rw [h1] at hu
  rw [hid, h hu] at h2
  cases h2

theorem acked_startReminderLoop {cfg : Config} {s : ReminderManager} {uid : Nat}
    {userId : Snowflake} (h : Acked s uid userId) (messageId : Snowflake) :
    Acked (startReminderLoop cfg s messageId) uid userId := by
  cases hr : s.reminderData.get messageId with
  | none => simpa [startReminderLoop, hr] using h
  | some reminder =>
    rw [startReminderLoop_of_get hr]
    intro e he hu
    rcases JsMap.mem_set he with h1 | h1
    · rw [h1] at hu ⊢
      exact h (messageId, reminder) (JsMap.mem_of_get hr) hu
    · exact h e h1 hu

theorem acked_cleanupReminder {s : ReminderManager} {uid : Nat} {userId : Snowflake}
    (h : Acked s uid userId) (messageId : Snowflake) :
    Acked (cleanupReminder s messageId) uid userId := by
  unfold cleanupReminder
  cases hr : s.reminderData.get messageId with
  | none => exact h
  | some reminder =>
    intro e he hu
    simp only [(clearTimeout_fields s reminder.reminderTimeout).1] at he
    exact h e (JsMap.mem_delete he) hu

theorem acked_updateRecord {s : ReminderManager} {uid : Nat} {userId : Snowflake}
    (h : Acked s uid userId) (u : Nat) (f : Reminder → Reminder)
    (hf : ∀ r, (f r).uid = r.uid ∧
      (r.usersReplied.has userId = true → (f r).usersReplied.has userId = true)) :
    Acked (updateRecord s u f) uid userId := by
  intro e he hu
  simp only [updateRecord, List.mem_map] at he
  obtain ⟨e0, he0, rfl⟩ := he
  by_cases h0 : e0.2.uid = u
  · simp only [h0, if_true] at hu ⊢
    rw [(hf e0.2).1] at hu
    exact (hf e0.2).2 (h e0 he0 hu)
  · simp only [h0, if_false] at hu ⊢
    exact h e0 he0 hu

theorem nextUid_startReminderLoop (cfg : Config) (s : ReminderManager) (messageId : Snowflake) :
    (startReminderLoop cfg s messageId).nextUid = s.nextUid ∧
      (startReminderLoop cfg s messageId).sent = s.sent := by
  cases hr : s.reminderData.get messageId with
  | none => simp [startReminderLoop, hr]
  | some reminder =>
    rw [startReminderLoop_of_get hr]
    exact ⟨rfl, rfl⟩

theorem clearTimeout_nextUid (s : ReminderManager) (h : Option Nat) :
    (clearTimeout s h).nextUid = s.nextUid := by
  cases h <;> rfl

theorem nextUid_cleanupReminder (s : ReminderManager) (messageId : Snowflake) :
    (cleanupReminder s messageId).nextUid = s.nextUid := by
  unfold cleanupReminder
  cases hr : s.reminderData.get messageId with
  | none => rfl
  | some reminder => exact clearTimeout_nextUid s _

theorem nextUid_sendReminders (cfg : Config) (s : ReminderManager) (messageId : Snowflake)
    (now : DateTime) : (sendReminders cfg s messageId now).nextUid = s.nextUid := by
  cases hr : s.reminderData.get messageId with
  | none => simp [sendReminders, hr]
  | some reminder =>
    cases hq : inQuietHours cfg now with
    | true => rw [sendReminders_quiet hr hq]; rfl
    | false =>
      rw [sendReminders_active hr hq]
      split
      · rw [nextUid_cleanupReminder]
      · rw [(nextUid_startReminderLoop _ _ _).1]

/-- One cycle keeps the acknowledgment and sends nothing to the acknowledged user. -/
theorem acked_sendReminders {cfg : Config} {s : ReminderManager} {uid : Nat}
    {userId : Snowflake} (h : Acked s uid userId) (messageId : Snowflake) (now : DateTime) :
    Acked (sendReminders cfg s messageId now) uid userId ∧
      sentTo (sendReminders cfg s messageId now).sent uid userId = sentTo s.sent uid userId := by
  cases hr : s.reminderData.get messageId with
  | none => simpa [sendReminders, hr] using h
  | some reminder =>
    cases hq : inQuietHours cfg now with
    | true =>
      rw [sendReminders_quiet hr hq]
      exact ⟨h, rfl⟩
    | false =>
      refine ⟨?_, ?_⟩
      · rw [sendReminders_active hr hq]
        split
        · apply acked_cleanupReminder
          exact h
        · apply acked_startReminderLoop
          exact h
      · rw [(sendReminders_active_sent hr hq).1, sentTo_append,
          sentTo_calls (h (messageId, reminder) (JsMap.mem_of_get hr)), List.append_nil]

theorem acked_createReminder {cfg : Config} {s : ReminderManager} {uid : Nat}
    {userId : Snowflake} (h : Acked s uid userId) (hlt : uid < s.nextUid) (message : Message)
    (mentionedUsers : JsMap User) (now : Nat) :
    Acked (createReminder cfg s message mentionedUsers now) uid userId ∧
      (createReminder cfg s message mentionedUsers now).sent = s.sent ∧
      (createReminder cfg s message mentionedUsers now).nextUid = s.nextUid + 1 := by
  unfold createReminder
  refine ⟨?_, ?_, ?_⟩
  · apply acked_startReminderLoop
    intro e he hu
    rcases JsMap.mem_set he with h1 | h1
    · rw [h1] at hu
      simp only at hu
      omega
    · exact h e h1 hu
  · rw [(nextUid_startReminderLoop _ _ _).2]
  · rw [(nextUid_startReminderLoop _ _ _).1]

/-- One event keeps the acknowledgment and sends nothing to the acknowledged user. -/
theorem acked_step {cfg : Config} {s : ReminderManager} {uid : Nat} {userId : Snowflake}
    (h : Acked s uid userId) (hlt : uid < s.nextUid) (ev : Event) :
    Acked (step cfg s ev) uid userId ∧ uid < (step cfg s ev).nextUid ∧
      sentTo (step cfg s ev).sent uid userId = sentTo s.sent uid userId := by
  cases ev with
  | createReminder message mentionedUsers now =>
    obtain ⟨h1, h2, h3⟩ := @acked_createReminder cfg s uid userId h hlt message mentionedUsers now
    simp only [step]
    exact ⟨h1, by omega, by rw [h2]⟩
  | handleEveryoneMention message botId now =>
    simp only [step, handleEveryoneMention]
    split
    · exact ⟨h, hlt, rfl⟩
    · rename_i members _
      obtain ⟨h1, h2, h3⟩ := @acked_createReminder cfg s uid userId h hlt message
        (JsMap.ofEntries ((everyoneUsers message botId members).map (fun user => (user.id, user))))
        now
      exact ⟨h1, by omega, by rw [h2]⟩
  | timeout handle now =>
    simp only [step, fire]
    split
    · exact ⟨h, hlt, rfl⟩
    · refine ⟨(acked_sendReminders ?_ _ _).1, ?_, (acked_sendReminders ?_ _ _).2⟩
      · exact h
      · rw [nextUid_sendReminders]
        exact hlt
      · exact h
  | settled d ok =>
    simp only [step, sendSettled]
    split
    · cases ok with
      | false => exact ⟨h, hlt, rfl⟩
      | true =>
        simp only [if_true]
        refine ⟨?_, hlt, rfl⟩
        apply acked_updateRecord
        · exact h
        · intro r
          exact ⟨rfl, fun hh => hh⟩
    · exact ⟨h, hlt, rfl⟩
  | collect u k =>
    simp only [step, collect]
    refine ⟨?_, hlt, rfl⟩
    apply acked_updateRecord h
    intro r
    split
    · exact ⟨rfl, fun hh => JsSet.has_add k hh⟩
    · exact ⟨rfl, fun hh => hh⟩

theorem acked_foldl {cfg : Config} (events : List Event) {s : ReminderManager} {uid : Nat}
    {userId : Snowflake} (h : Acked s uid userId) (hlt : uid < s.nextUid) :
    sentTo (events.foldl (step cfg) s).sent uid userId = sentTo s.sent uid userId := by
  induction events generalizing s with
  | nil => rfl
  | cons ev events ih =>
    obtain ⟨h1, h2, h3⟩ := @acked_step cfg s uid userId h hlt ev
    rw [List.foldl_cons, ih h1 h2, h3]

/-- In a state of a run, a registered record with `userId` acknowledged makes the state
`Acked` for the identity of that record. -/
theorem acked_of_get {cfg : Config} (events : List Event) {messageId : Snowflake}
    {reminder : Reminder} {userId : Snowflake}
    (hr : (run cfg events).reminderData.get messageId = some reminder)
    (hack : reminder.usersReplied.has userId = true) :
    Acked (run cfg events) reminder.uid userId ∧ reminder.uid < (run cfg events).nextUid := by
  have hu := uidInv_run cfg events
  have hm := JsMap.mem_of_get hr
  refine ⟨?_, hu.2 (messageId, reminder) hm⟩
  intro e he heq
  have := List.inj_on_of_nodup_map hu.1 he hm heq
  rw [this]
  exact hack

/-! ## Lemmas: a send settles -/

theorem updateRecord_get (s : ReminderManager) (uid : Nat) (f : Reminder → Reminder)
    (k : Snowflake) :
    (updateRecord s uid f).reminderData.get k =
      (s.reminderData.get k).map (fun r => if r.uid = uid then f r else r) := by
  unfold updateRecord
  simp only
  induction s.reminderData with
  | nil => simp [JsMap.get]
  | cons e m ih =>
    obtain ⟨k', r⟩ := e
    rw [List.map_cons]
    by_cases hu : r.uid = uid
    · rw [if_pos hu]
      by_cases hk : k' = k
      · simp only [JsMap.get, hk, if_true, Option.map_some', if_pos hu]
      · simp only [JsMap.get, hk, if_false]
        exact ih
    · rw [if_neg hu]
      by_cases hk : k' = k
      · simp only [JsMap.get, hk, if_true, Option.map_some', if_neg hu]
      · simp only [JsMap.get, hk, if_false]
        exact ih

/-- A fulfilled send writes `reminderCount + 1` into the record it belongs to. -/
theorem sendSettled_ok_get {s : ReminderManager} {d : Delivery} (hd : d ∈ s.pending)
    {k : Snowflake} {r : Reminder} (hr : s.reminderData.get k = some r) (hu : r.uid = d.record) :
    (sendSettled s d true).reminderData.get k =
      some { r with reminderCounts := r.reminderCounts.set d.user.id (d.reminderCount + 1) } := by
  unfold sendSettled
  simp only [hd, if_true]
  rw [updateRecord_get]
  simp only
  rw [hr]
  simp [hu]

/-- A rejected send changes nothing but the list of pending sends. -/
theorem sendSettled_fail {s : ReminderManager} {d : Delivery} (hd : d ∈ s.pending) :
    sendSettled s d false = { s with pending := s.pending.erase d } := by
  simp [sendSettled, hd]

theorem sendSettled_frame (s : ReminderManager) (d : Delivery) (ok : Bool) :
    (sendSettled s d ok).timers = s.timers ∧ (sendSettled s d ok).sent = s.sent := by
  unfold sendSettled
  by_cases hd : d ∈ s.pending
  · cases ok with
    | false => simp [hd]
    | true => simp [hd, updateRecord]
  · simp [hd]

theorem sendSettled_pending {s : ReminderManager} {d : Delivery} (hd : d ∈ s.pending)
    (ok : Bool) : (sendSettled s d ok).pending = s.pending.erase d := by
  unfold sendSettled
  cases ok <;> simp [hd, updateRecord]


/-! ## Lemmas: the scenario of recipients A and B -/

theorem scenario_active (now : DateTime) : inQuietHours scenario now = false := by
  simp [inQuietHours, scenario]

theorem scenario_max : scenario.MAX_REMINDERS = 2 := rfl

theorem scenario_interval : scenario.REMINDER_INTERVAL = 1000 := rfl

theorem run_firstCycle (t1 : DateTime) :
    run scenario (firstCycle t1) =
      { reminderData := [(10, scenarioRecord [] [(1, 1), (2, 1)] 1)]
        timers := [⟨1, 10, 1000⟩]
        nextHandle := 2
        nextUid := 1
        pending := []
        sent := [⟨0, alice, 0⟩, ⟨0, bob, 0⟩] } := by
  simp [run, firstCycle, scenarioRecord, step, fire, createReminder, startReminderLoop,
    setTimeout, ReminderManager.new, JsMap.get, JsMap.set, sampleMessage, initialCounts, alice,
    bob, sendReminders, scenario_active, remindAll, remindUser, JsSet.has, scenario_max,
    scenario_interval, sendSettled, updateRecord]

theorem run_secondCycle (t1 t2 : DateTime) :
    run scenario (secondCycle t1 t2) =
      { reminderData := [(10, scenarioRecord [2] [(1, 2), (2, 1)] 2)]
        timers := [⟨2, 10, 1000⟩]
        nextHandle := 3
        nextUid := 1
        pending := []
        sent := [⟨0, alice, 0⟩, ⟨0, bob, 0⟩, ⟨0, alice, 1⟩] } := by
  have h : run scenario (secondCycle t1 t2) =
      [Event.collect 0 2, Event.timeout 1 t2, Event.settled ⟨0, alice, 1⟩ true].foldl
        (step scenario) (run scenario (firstCycle t1)) := by
    simp [run, secondCycle, List.foldl_append]
  rw [h, run_firstCycle]
  simp [scenarioRecord, step, fire, startReminderLoop, collect,
    setTimeout, JsMap.get, JsMap.set, JsMap.has, JsSet.add, sampleMessage, alice,
    bob, sendReminders, scenario_active, remindAll, remindUser, JsSet.has, scenario_max,
    scenario_interval, sendSettled, updateRecord]

theorem run_thirdCycle (t1 t2 t3 : DateTime) :
    run scenario (thirdCycle t1 t2 t3) =
      { reminderData := []
        timers := []
        nextHandle := 3
        nextUid := 1
        pending := []
        sent := [⟨0, alice, 0⟩, ⟨0, bob, 0⟩, ⟨0, alice, 1⟩] } := by
  have h : run scenario (thirdCycle t1 t2 t3) =
      step scenario (run scenario (secondCycle t1 t2)) (Event.timeout 2 t3) := by
    unfold thirdCycle
    rw [run_append]
  rw [h, run_secondCycle]
  simp [scenarioRecord, step, fire, cleanupReminder, clearTimeout, JsMap.delete,
    JsMap.get, sampleMessage, alice,
    bob, sendReminders, scenario_active, remindAll, remindUser, JsSet.has, scenario_max]

/-! ## Lemmas: broadcast mentions -/

theorem JsMap.get_eq_none_iff {α : Type} (m : JsMap α) (k : Snowflake) :
    JsMap.get m k = none ↔ k ∉ m.map (fun e => e.1) := by
  induction m with
  | nil => simp [JsMap.get]
  | cons e m ih =>
    obtain ⟨k', v⟩ := e
    by_cases hk : k' = k
    · simp [JsMap.get, hk]
    · simp only [JsMap.get, hk, if_false, ih, List.map_cons, List.mem_cons, not_or]
      exact ⟨fun h => ⟨fun h' => hk h'.symm, h⟩, fun h => h.2⟩

theorem JsMap.has_iff {α : Type} (m : JsMap α) (k : Snowflake) :
    JsMap.has m k = true ↔ ∃ e ∈ m, e.1 = k := by
  unfold JsMap.has
  rw [Option.isSome_iff_ne_none, Ne, JsMap.get_eq_none_iff]
  simp

theorem JsMap.ofEntries_fold_nodup {α : Type} (l acc : List (Snowflake × α))
    (hn : (l.map (fun e => e.1)).Nodup)
    (hd : ∀ e ∈ l, e.1 ∉ acc.map (fun e => e.1)) :
    l.foldl (fun m e => JsMap.set m e.1 e.2) acc = acc ++ l := by
  induction l generalizing acc with
  | nil => simp
  | cons e l ih =>
    rw [List.foldl_cons]
    have hget : JsMap.get acc e.1 = none :=
      (JsMap.get_eq_none_iff acc e.1).mpr (hd e (List.mem_cons_self _ _))
    have hset : JsMap.set acc e.1 e.2 = acc ++ [e] := by
      rcases JsMap.set_cases acc e.1 e.2 with ⟨_, h2⟩ | ⟨l1, v0, l2, _, h2, _⟩
      · exact h2
      · rw [hget] at h2; cases h2
    rw [hset]
    rw [List.map_cons, List.nodup_cons] at hn
    rw [ih (acc ++ [e]) hn.2]
    · simp
    · intro e' he'
      simp only [List.map_append, List.map_cons, List.map_nil, List.mem_append,
        List.mem_singleton, not_or]
      refine ⟨hd e' (List.mem_cons_of_mem _ he'), ?_⟩
      intro heq
      exact hn.1 (heq ▸ List.mem_map_of_mem (fun e => e.1) he')

/-- The constructor `new Map(entries)` keeps entries with distinct keys as they are. -/
theorem JsMap.ofEntries_nodup {α : Type} (l : List (Snowflake × α))
    (hn : (l.map (fun e => e.1)).Nodup) : JsMap.ofEntries l = l := by
  unfold JsMap.ofEntries
  rw [JsMap.ofEntries_fold_nodup l [] hn (by simp)]
  simp

theorem JsMap.ofEntries_fold_mem {α : Type} (l acc : List (Snowflake × α))
    (e : Snowflake × α) (he : e ∈ l.foldl (fun m e => JsMap.set m e.1 e.2) acc) :
    e ∈ acc ∨ e ∈ l := by
  induction l generalizing acc with
  | nil => exact Or.inl he
  | cons e' l ih =>
    rw [List.foldl_cons] at he
    rcases ih _ he with h | h
    · rcases JsMap.mem_set h with h1 | h1
      · right; rw [h1]; exact List.mem_cons_self _ _
      · exact Or.inl h1
    · exact Or.inr (List.mem_cons_of_mem _ h)

/-- Every entry of `new Map(entries)` is one of the entries. -/
theorem JsMap.ofEntries_mem {α : Type} (l : List (Snowflake × α)) (e : Snowflake × α)
    (he : e ∈ JsMap.ofEntries l) : e ∈ l := by
  rcases JsMap.ofEntries_fold_mem l [] e he with h | h
  · cases h
  · exact h

theorem JsMap.has_set {α : Type} (m : JsMap α) (k k' : Snowflake) (v : α) :
    JsMap.has (JsMap.set m k v) k' = true ↔ (k' = k ∨ JsMap.has m k' = true) := by
  unfold JsMap.has
  by_cases hk : k' = k
  · subst hk
    simp [JsMap.get_set_self]
  · rw [JsMap.get_set_ne m v hk]
    simp [hk]

theorem JsMap.ofEntries_fold_has {α : Type} (l acc : List (Snowflake × α)) (k : Snowflake) :
    JsMap.has (l.foldl (fun m e => JsMap.set m e.1 e.2) acc) k = true ↔
      (JsMap.has acc k = true ∨ ∃ e ∈ l, e.1 = k) := by
  induction l generalizing acc with
  | nil => simp
  | cons e l ih =>
    rw [List.foldl_cons, ih, JsMap.has_set]
    simp only [List.mem_cons, exists_eq_or_imp]
    constructor
    · rintro ((h | h) | h)
      · exact Or.inr (Or.inl h.symm)
      · exact Or.inl h
      · exact Or.inr (Or.inr h)
    · rintro (h | h | h)
      · exact Or.inl (Or.inr h)
      · exact Or.inl (Or.inl h.symm)
      · exact Or.inr h

/-- The keys of `new Map(entries)` are the keys of the entries. -/
theorem JsMap.ofEntries_has {α : Type} (l : List (Snowflake × α)) (k : Snowflake) :
    JsMap.has (JsMap.ofEntries l) k = true ↔ ∃ e ∈ l, e.1 = k := by
  unfold JsMap.ofEntries
  rw [JsMap.ofEntries_fold_has]
  simp [JsMap.has, JsMap.get]

theorem mem_everyoneUsers {message : Message} {botId : Snowflake}
    {members : JsMap GuildMember} {u : User} :
    u ∈ everyoneUsers message botId members ↔
      ∃ e ∈ members, e.2.user = u ∧ u.bot = false ∧ u.id ≠ message.author.id ∧ u.id ≠ botId := by
  unfold everyoneUsers
  simp only [List.mem_map, List.mem_filter, Bool.and_eq_true, Bool.not_eq_true', bne_iff_ne]
  constructor
  · rintro ⟨e, ⟨he, ⟨h1, h2⟩, h3⟩, rfl⟩
    exact ⟨e, he, rfl, h1, h2, h3⟩
  · rintro ⟨e, he, rfl, h1, h2, h3⟩
    exact ⟨e, ⟨he, ⟨h1, h2⟩, h3⟩, rfl⟩

/-- The record that `createReminder` registers. -/
theorem createReminder_get (cfg : Config) (s : ReminderManager) (message : Message)
    (mentionedUsers : JsMap User) (now : Nat) :
    (createReminder cfg s message mentionedUsers now).reminderData.get message.id =
      some { uid := s.nextUid, message := message, mentionedUsers := mentionedUsers,
             usersReplied := [], reminderCounts := initialCounts mentionedUsers,
             channel := message.channel, reminderTimeout := some s.nextHandle,
             createdAt := now } := by
  unfold createReminder
  simp only
  rw [startReminderLoop_of_get (JsMap.get_set_self _ _ _)]
  simp only
  rw [JsMap.get_set_self]

theorem filter_id_length_one (l : JsMap GuildMember) (a : Snowflake)
    (hn : (l.map (fun e => e.2.user.id)).Nodup) (hm : ∃ m ∈ l, m.2.user.id = a) :
    (l.filter (fun e => decide (e.2.user.id = a))).length = 1 := by
  induction l with
  | nil => simp at hm
  | cons e l ih =>
    rw [List.map_cons, List.nodup_cons] at hn
    by_cases he : e.2.user.id = a
    · have hnone : l.filter (fun e => decide (e.2.user.id = a)) = [] := by
        rw [List.filter_eq_nil_iff]
        intro e' he' heq
        simp only [decide_eq_true_eq] at heq
        apply hn.1
        rw [he, ← heq]
        exact List.mem_map_of_mem (fun e => e.2.user.id) he'
      simp [List.filter_cons, he, hnone]
    · obtain ⟨m, hm1, hm2⟩ := hm
      rcases List.mem_cons.mp hm1 with h | h
      · rw [h] at hm2; exact absurd hm2 he
      · simp only [List.filter_cons, he, decide_False, Bool.false_eq_true, if_false]
        exact ih hn.2 ⟨m, h, hm2⟩

theorem length_three_way {α : Type} (l : List α) (p q r : α → Bool)
    (h : ∀ e ∈ l, (p e = true ∧ q e = false ∧ r e = false) ∨
      (p e = false ∧ q e = true ∧ r e = false) ∨ (p e = false ∧ q e = false ∧ r e = true)) :
    l.length = (l.filter p).length + (l.filter q).length + (l.filter r).length := by
  induction l with
  | nil => simp
  | cons e l ih =>
    have ih' := ih (fun e' he' => h e' (List.mem_cons_of_mem _ he'))
    rcases h e (List.mem_cons_self _ _) with ⟨h1, h2, h3⟩ | ⟨h1, h2, h3⟩ | ⟨h1, h2, h3⟩ <;>
      simp only [List.filter_cons, h1, h2, h3, if_true, Bool.false_eq_true, if_false,
        List.length_cons] <;> omega

/-- Members with distinct ids, among them the author and the bot itself, all others not
bots: two members are left out. -/
theorem everyoneUsers_length {message : Message} {botId : Snowflake}
    {members : JsMap GuildMember}
    (hn : (members.map (fun e => e.2.user.id)).Nodup)
    (ha : ∃ m ∈ members, m.2.user.id = message.author.id)
    (hb : ∃ m ∈ members, m.2.user.id = botId)
    (hab : message.author.id ≠ botId)
    (hrest : ∀ m ∈ members, m.2.user.id ≠ message.author.id → m.2.user.id ≠ botId →
      m.2.user.bot = false) :
    (everyoneUsers message botId members).length + 2 = members.length := by
  have h1 := filter_id_length_one members message.author.id hn ha
  have h2 := filter_id_length_one members botId hn hb
  have h3 := length_three_way members
    (fun e => !e.2.user.bot && e.2.user.id != message.author.id && e.2.user.id != botId)
    (fun e => decide (e.2.user.id = message.author.id))
    (fun e => decide (e.2.user.id = botId))
    (by
      intro e he
      by_cases hea : e.2.user.id = message.author.id
      · right; left
        have : e.2.user.id ≠ botId := by rw [hea]; exact hab
        simp [hea, this, hab]
      · by_cases heb : e.2.user.id = botId
        · right; right
          simp [hea, heb]
          intro h; exact hab h.symm
        · left
          simp [hea, heb, hrest e he hea heb])
  unfold everyoneUsers
  rw [List.length_map]
  omega

/-! ## Lemmas: cleanup -/

/-- The method `cleanupReminder` returns at once when there is no record. -/
theorem cleanupReminder_of_none {s : ReminderManager} {messageId : Snowflake}
    (h : s.reminderData.get messageId = none) : cleanupReminder s messageId = s := by
  simp [cleanupReminder, h]

/-! ## Lemmas: timer handles -/

theorem handleInv_new : HandleInv ReminderManager.new := by
  simp [HandleInv, ReminderManager.new]

theorem handleInv_setTimeout {s : ReminderManager} (h : HandleInv s) (messageId : Snowflake)
    (delay : Int) : HandleInv (setTimeout s messageId delay).1 := by
  intro t ht
  simp only [setTimeout, List.mem_append, List.mem_singleton] at ht ⊢
  rcases ht with ht | ht
  · have := h t ht
    omega
  · rw [ht]
    simp

theorem handleInv_clearTimeout {s : ReminderManager} (h : HandleInv s) (handle : Option Nat) :
    HandleInv (clearTimeout s handle) := by
  cases handle with
  | none => exact h
  | some k =>
    intro t ht
    simp only [clearTimeout, List.mem_filter] at ht ⊢
    exact h t ht.1

theorem handleInv_startReminderLoop {cfg : Config} {s : ReminderManager} (h : HandleInv s)
    (messageId : Snowflake) : HandleInv (startReminderLoop cfg s messageId) := by
  cases hr : s.reminderData.get messageId with
  | none => simpa [startReminderLoop, hr] using h
  | some reminder =>
    rw [startReminderLoop_of_get hr]
    exact handleInv_setTimeout h messageId cfg.REMINDER_INTERVAL

theorem handleInv_cleanupReminder {s : ReminderManager} (h : HandleInv s)
    (messageId : Snowflake) : HandleInv (cleanupReminder s messageId) := by
  unfold cleanupReminder
  cases hr : s.reminderData.get messageId with
  | none => exact h
  | some reminder => exact handleInv_clearTimeout h reminder.reminderTimeout

theorem handleInv_createReminder {cfg : Config} {s : ReminderManager} (h : HandleInv s)
    (message : Message) (mentionedUsers : JsMap User) (now : Nat) :
    HandleInv (createReminder cfg s message mentionedUsers now) := by
  unfold createReminder
  apply handleInv_startReminderLoop
  exact h

theorem handleInv_sendReminders {cfg : Config} {s : ReminderManager} (h : HandleInv s)
    (messageId : Snowflake) (now : DateTime) :
    HandleInv (sendReminders cfg s messageId now) := by
  cases hr : s.reminderData.get messageId with
  | none => simpa [sendReminders, hr] using h
  | some reminder =>
    cases hq : inQuietHours cfg now with
    | true =>
      rw [sendReminders_quiet hr hq]
      exact handleInv_setTimeout h _ _
    | false =>
      rw [sendReminders_active hr hq]
      split
      · apply handleInv_cleanupReminder
        exact h
      · apply handleInv_startReminderLoop
        exact h

theorem handleInv_fire {cfg : Config} {s : ReminderManager} (h : HandleInv s) (handle : Nat)
    (now : DateTime) : HandleInv (fire cfg s handle now) := by
  unfold fire
  split
  · exact h
  · apply handleInv_sendReminders
    intro t ht
    simp only [List.mem_filter] at ht
    exact h t ht.1

theorem handleInv_step {cfg : Config} {s : ReminderManager} (h : HandleInv s) (ev : Event) :
    HandleInv (step cfg s ev) := by
  cases ev with
  | createReminder message mentionedUsers now => exact handleInv_createReminder h _ _ _
  | handleEveryoneMention message botId now =>
    simp only [step, handleEveryoneMention]
    split
    · exact h
    · exact handleInv_createReminder h _ _ _
  | timeout handle now => exact handleInv_fire h _ _
  | settled d ok =>
    have hf := sendSettled_frame s d ok
    intro t ht
    simp only [step] at ht ⊢
    rw [hf.1] at ht
    have hn : (sendSettled s d ok).nextHandle = s.nextHandle := by
      unfold sendSettled
      by_cases hd : d ∈ s.pending
      · cases ok <;> simp [hd, updateRecord]
      · simp [hd]
    rw [hn]
    exact h t ht
  | collect uid userId => exact h

theorem handleInv_foldl {cfg : Config} (events : List Event) {s : ReminderManager}
    (h : HandleInv s) : HandleInv (events.foldl (step cfg) s) := by
  induction events generalizing s with
  | nil => exact h
  | cons ev events ih => exact ih (handleInv_step h ev)

/-- In every state of every run the live timers have handles below the next one. -/
theorem handleInv_run (cfg : Config) (events : List Event) : HandleInv (run cfg events) :=
  handleInv_foldl events handleInv_new

/-! ## Lemmas: settlements and acknowledgments in a row -/

theorem sendSettled_fields (s : ReminderManager) (d : Delivery) (ok : Bool) :
    (sendSettled s d ok).timers = s.timers ∧ (sendSettled s d ok).sent = s.sent ∧
      (sendSettled s d ok).nextHandle = s.nextHandle ∧
      (sendSettled s d ok).pending = s.pending.erase d := by
  unfold sendSettled
  by_cases hd : d ∈ s.pending
  · cases ok <;> simp [hd, updateRecord]
  · simp [hd, List.erase_of_not_mem hd]

theorem sendSettled_false_data (s : ReminderManager) (d : Delivery) :
    (sendSettled s d false).reminderData = s.reminderData := by
  unfold sendSettled
  by_cases hd : d ∈ s.pending <;> simp [hd]

theorem settleAll_frame (s : ReminderManager) (ds : List Delivery) (ok : Bool) :
    (settleAll s ds ok).timers = s.timers ∧ (settleAll s ds ok).sent = s.sent ∧
      (settleAll s ds ok).nextHandle = s.nextHandle := by
  induction ds generalizing s with
  | nil => exact ⟨rfl, rfl, rfl⟩
  | cons d ds ih =>
    have h1 := sendSettled_fields s d ok
    have h2 := ih (sendSettled s d ok)
    simp only [settleAll, List.foldl_cons] at h2 ⊢
    exact ⟨h2.1.trans h1.1, h2.2.1.trans h1.2.1, h2.2.2.trans h1.2.2.1⟩

theorem settleAll_false_data (s : ReminderManager) (ds : List Delivery) :
    (settleAll s ds false).reminderData = s.reminderData := by
  induction ds generalizing s with
  | nil => rfl
  | cons d ds ih =>
    have h2 := ih (sendSettled s d false)
    simp only [settleAll, List.foldl_cons] at h2 ⊢
    exact h2.trans (sendSettled_false_data s d)

/-- Fulfilled sends of one record, all of them pending: the record gets their writes. -/
theorem settleAll_true_get (ds : List Delivery) (s : ReminderManager) (k : Snowflake)
    (r : Reminder) (hr : s.reminderData.get k = some r)
    (hu : ∀ d ∈ ds, d.record = r.uid) (hp : ds.Subperm s.pending) :
    (settleAll s ds true).reminderData.get k =
      some { r with reminderCounts := (ds.foldl
        (fun c d => c.set d.user.id (d.reminderCount + 1)) r.reminderCounts) } := by
  induction ds generalizing s r with
  | nil => simpa [settleAll] using hr
  | cons d ds ih =>
    have hd : d ∈ s.pending := hp.subset (List.mem_cons_self _ _)
    have h1 := sendSettled_ok_get hd hr (hu d (List.mem_cons_self _ _)).symm
    have hp' : ds.Subperm (sendSettled s d true).pending := by
      rw [(sendSettled_fields s d true).2.2.2]
      have := hp.erase d
      rwa [List.erase_cons_head] at this
    have h2 := ih (sendSettled s d true) _ h1
      (fun d' hd' => hu d' (List.mem_cons_of_mem _ hd')) hp'
    simp only [settleAll, List.foldl_cons] at h2 ⊢
    exact h2

theorem counts_fold_get (ds : List Delivery) (k : Nat) (c : JsMap Nat)
    (hk : ∀ d ∈ ds, d.reminderCount = k) (id : Snowflake) :
    (ds.foldl (fun c d => c.set d.user.id (d.reminderCount + 1)) c).get id =
      if ∃ d ∈ ds, d.user.id = id then some (k + 1) else c.get id := by
  induction ds generalizing c with
  | nil => simp
  | cons d ds ih =>
    rw [List.foldl_cons, ih _ (fun d' hd' => hk d' (List.mem_cons_of_mem _ hd'))]
    by_cases h1 : ∃ d' ∈ ds, d'.user.id = id
    · have h2 : ∃ d' ∈ d :: ds, d'.user.id = id := by
        obtain ⟨d', hd', he⟩ := h1
        exact ⟨d', List.mem_cons_of_mem _ hd', he⟩
      rw [if_pos h1, if_pos h2]
    · rw [if_neg h1]
      by_cases h3 : d.user.id = id
      · have h2 : ∃ d' ∈ d :: ds, d'.user.id = id := ⟨d, List.mem_cons_self _ _, h3⟩
        rw [if_pos h2, ← h3, JsMap.get_set_self, hk d (List.mem_cons_self _ _)]
      · have h2 : ¬ ∃ d' ∈ d :: ds, d'.user.id = id := by
          rintro ⟨d', hd', he⟩
          rcases List.mem_cons.mp hd' with h | h
          · exact h3 (h ▸ he)
          · exact h1 ⟨d', h, he⟩
        rw [if_neg h2, JsMap.get_set_ne _ _ (Ne.symm h3)]

theorem collectAll_frame (s : ReminderManager) (uid : Nat) (acks : List Snowflake) :
    (collectAll s uid acks).timers = s.timers ∧ (collectAll s uid acks).sent = s.sent ∧
      (collectAll s uid acks).nextHandle = s.nextHandle := by
  induction acks generalizing s with
  | nil => exact ⟨rfl, rfl, rfl⟩
  | cons a acks ih =>
    have h2 := ih (collect s uid a)
    simp only [collectAll, List.foldl_cons] at h2 ⊢
    exact h2

theorem collectAll_get_none (s : ReminderManager) (uid : Nat) (acks : List Snowflake)
    (k : Snowflake) (h : s.reminderData.get k = none) :
    (collectAll s uid acks).reminderData.get k = none := by
  induction acks generalizing s with
  | nil => exact h
  | cons a acks ih =>
    have h1 : (collect s uid a).reminderData.get k = none := by
      unfold collect
      rw [updateRecord_get, h]
      rfl
    have h2 := ih (collect s uid a) h1
    simp only [collectAll, List.foldl_cons] at h2 ⊢
    exact h2

/-- Acknowledgments change nothing of a record but `usersReplied`, which grows. -/
theorem collectAll_get (acks : List Snowflake) (s : ReminderManager) (uid : Nat)
    (k : Snowflake) (r : Reminder) (h : s.reminderData.get k = some r) :
    ∃ r', (collectAll s uid acks).reminderData.get k = some r' ∧ r'.uid = r.uid ∧
      r'.mentionedUsers = r.mentionedUsers ∧ r'.reminderCounts = r.reminderCounts ∧
      r'.reminderTimeout = r.reminderTimeout ∧
      ∀ id, r.usersReplied.has id = true → r'.usersReplied.has id = true := by
  induction acks generalizing s r with
  | nil => exact ⟨r, h, rfl, rfl, rfl, rfl, fun _ hh => hh⟩
  | cons a acks ih =>
    have h1 : ∃ r1, (collect s uid a).reminderData.get k = some r1 ∧ r1.uid = r.uid ∧
        r1.mentionedUsers = r.mentionedUsers ∧ r1.reminderCounts = r.reminderCounts ∧
        r1.reminderTimeout = r.reminderTimeout ∧
        ∀ id, r.usersReplied.has id = true → r1.usersReplied.has id = true := by
      unfold collect
      rw [updateRecord_get, h]
      simp only [Option.map_some']
      by_cases hu : r.uid = uid
      · rw [if_pos hu]
        by_cases hm : r.mentionedUsers.has a = true
        · rw [if_pos hm]
          exact ⟨_, rfl, rfl, rfl, rfl, rfl, fun id hh => JsSet.has_add a hh⟩
        · rw [if_neg hm]
          exact ⟨_, rfl, rfl, rfl, rfl, rfl, fun _ hh => hh⟩
      · rw [if_neg hu]
        exact ⟨_, rfl, rfl, rfl, rfl, rfl, fun _ hh => hh⟩
    obtain ⟨r1, g1, g2, g3, g4, g5, g6⟩ := h1
    obtain ⟨r', f1, f2, f3, f4, f5, f6⟩ := ih (collect s uid a) r1 g1
    refine ⟨r', ?_, f2.trans g2, f3.trans g3, f4.trans g4, f5.trans g5,
      fun id hh => f6 id (g6 id hh)⟩
    simp only [collectAll, List.foldl_cons] at f1 ⊢
    exact f1

theorem handleInv_of_frame {s t : ReminderManager} (h : HandleInv s)
    (ht : t.timers = s.timers) (hn : t.nextHandle = s.nextHandle) : HandleInv t := by
  unfold HandleInv
  rw [ht, hn]
  exact h

theorem due_of_frame {s t : ReminderManager} {messageId : Snowflake} {r r' : Reminder}
    (h : Due s messageId r) (ht : t.timers = s.timers)
    (hr : r'.reminderTimeout = r.reminderTimeout) : Due t messageId r' := by
  obtain ⟨h0, delay, h1, h2⟩ := h
  exact ⟨h0, delay, hr.trans h1, by rw [ht]; exact h2⟩

/-! ## Lemmas: one round -/

/-- The timer of a record fires outside quiet hours with somebody eligible. -/
theorem fire_resched {cfg : Config} {s : ReminderManager} {h : Nat} {delay : Int}
    {messageId : Snowflake} {now : DateTime} {r : Reminder}
    (ht : s.timers.find? (fun t => decide (t.handle = h)) = some ⟨h, messageId, delay⟩)
    (hr : s.reminderData.get messageId = some r) (hq : inQuietHours cfg now = false)
    (hc : calls cfg r ≠ []) :
    (fire cfg s h now).reminderData =
        s.reminderData.set messageId { r with reminderTimeout := some s.nextHandle } ∧
      (fire cfg s h now).timers =
        s.timers.filter (fun t => !decide (t.handle = h)) ++
          [⟨s.nextHandle, messageId, cfg.REMINDER_INTERVAL⟩] ∧
      (fire cfg s h now).pending = s.pending ++ calls cfg r ∧
      (fire cfg s h now).sent = s.sent ++ calls cfg r ∧
      (fire cfg s h now).nextHandle = s.nextHandle + 1 := by
  have hlen : (calls cfg r).length ≠ 0 := by
    simpa [List.length_eq_zero] using hc
  have hr' : ({ s with timers := s.timers.filter (fun t => !decide (t.handle = h))
                       pending := s.pending ++ calls cfg r
                       sent := s.sent ++ calls cfg r } :
      ReminderManager).reminderData.get messageId = some r := hr
  rw [fire_active ht hr hq]
  simp only [hlen, if_false]
  rw [startReminderLoop_of_get hr']
  exact ⟨rfl, rfl, rfl, rfl, rfl⟩

/-- The timer of a record fires outside quiet hours with nobody eligible. -/
theorem fire_retire {cfg : Config} {s : ReminderManager} {h : Nat} {delay : Int}
    {messageId : Snowflake} {now : DateTime} {r : Reminder}
    (ht : s.timers.find? (fun t => decide (t.handle = h)) = some ⟨h, messageId, delay⟩)
    (hr : s.reminderData.get messageId = some r) (hq : inQuietHours cfg now = false)
    (hc : calls cfg r = []) :
    (fire cfg s h now).reminderData.get messageId = none ∧
      (fire cfg s h now).sent = s.sent := by
  rw [fire_active ht hr hq]
  simp only [hc, List.length_nil, if_true, List.append_nil]
  exact ⟨cleanupReminder_get_self _ _, (cleanupReminder_sent _ _).1⟩

theorem find_new_timer {s : ReminderManager} (hH : HandleInv s) (h : Nat)
    (messageId : Snowflake) (delay : Int) :
    List.find? (fun t : Timer => decide (t.handle = s.nextHandle))
        (s.timers.filter (fun t => !decide (t.handle = h)) ++
          [⟨s.nextHandle, messageId, delay⟩]) =
      some ⟨s.nextHandle, messageId, delay⟩ := by
  have hnone : (s.timers.filter (fun t => !decide (t.handle = h))).find?
      (fun t => decide (t.handle = s.nextHandle)) = none := by
    rw [List.find?_eq_none]
    intro t ht
    have := hH t (List.mem_filter.mp ht).1
    simp only [decide_eq_true_eq]
    omega
  rw [List.find?_append, hnone]
  simp

theorem handleInv_settleAll {s : ReminderManager} (h : HandleInv s) (ds : List Delivery)
    (ok : Bool) : HandleInv (settleAll s ds ok) :=
  handleInv_of_frame h (settleAll_frame s ds ok).1 (settleAll_frame s ds ok).2.2

theorem handleInv_collectAll {s : ReminderManager} (h : HandleInv s) (uid : Nat)
    (acks : List Snowflake) : HandleInv (collectAll s uid acks) :=
  handleInv_of_frame h (collectAll_frame s uid acks).1 (collectAll_frame s uid acks).2.2

/-- The form of `round` on a record with a stored timer. -/
theorem round_of_get {cfg : Config} {s : ReminderManager} {messageId : Snowflake}
    {r : Reminder} {h : Nat} (hr : s.reminderData.get messageId = some r)
    (hto : r.reminderTimeout = some h) (now : DateTime) (ok : Bool) (acks : List Snowflake) :
    round cfg s messageId now ok acks =
      collectAll (settleAll (fire cfg s h now) (calls cfg r) ok) r.uid acks := by
  simp [round, hr, hto, remindAll_eq]

theorem round_of_none {cfg : Config} {s : ReminderManager} {messageId : Snowflake}
    (hr : s.reminderData.get messageId = none) (now : DateTime) (ok : Bool)
    (acks : List Snowflake) : round cfg s messageId now ok acks = s := by
  simp [round, hr]

theorem handleInv_round {cfg : Config} {s : ReminderManager} (hH : HandleInv s)
    (messageId : Snowflake) (now : DateTime) (ok : Bool) (acks : List Snowflake) :
    HandleInv (round cfg s messageId now ok acks) := by
  unfold round
  split
  · exact hH
  · split
    · exact hH
    · exact handleInv_collectAll (handleInv_settleAll (handleInv_fire hH _ _) _ _) _ _

/-- With every recipient acknowledged or at a count at or above the cap, nobody is
eligible. -/
theorem calls_nil_of_roundInv {cfg : Config} {r : Reminder} {k : Nat} (hi : RoundInv k r)
    (hk : cfg.MAX_REMINDERS ≤ k) : calls cfg r = [] := by
  rw [calls_eq_nil_iff]
  intro e he
  rcases hi e he with h | h
  · simp [eligible, h]
  · simp only [eligible, h, Option.getD_some, Bool.and_eq_false_iff, Bool.not_eq_false',
      decide_eq_false_iff_not, Nat.not_lt]
    exact Or.inr hk

/-- A round that finds nobody eligible removes the record and sends nothing. -/
theorem round_retire {cfg : Config} {s : ReminderManager} {messageId : Snowflake}
    {r : Reminder} (hr : s.reminderData.get messageId = some r) (hd : Due s messageId r)
    {now : DateTime} (hq : inQuietHours cfg now = false) (hc : calls cfg r = [])
    (ok : Bool) (acks : List Snowflake) :
    (round cfg s messageId now ok acks).reminderData.get messageId = none ∧
      (round cfg s messageId now ok acks).sent = s.sent := by
  obtain ⟨h, delay, hto, ht⟩ := hd
  rw [round_of_get hr hto, hc]
  have hf := fire_retire ht hr hq hc
  refine ⟨collectAll_get_none _ _ _ _ hf.1, ?_⟩
  rw [(collectAll_frame _ _ _).2.1]
  exact hf.2

/-- A round with fulfilled sends: either the record is removed, or every recipient is
acknowledged or one count further. -/
theorem round_true_step {cfg : Config} {s : ReminderManager} {messageId : Snowflake}
    {r : Reminder} {k : Nat} (hr : s.reminderData.get messageId = some r)
    (hd : Due s messageId r) (hH : HandleInv s) (hi : RoundInv k r) {now : DateTime}
    (hq : inQuietHours cfg now = false) (acks : List Snowflake) :
    (round cfg s messageId now true acks).reminderData.get messageId = none ∨
      ∃ r', (round cfg s messageId now true acks).reminderData.get messageId = some r' ∧
        Due (round cfg s messageId now true acks) messageId r' ∧ RoundInv (k + 1) r' := by
  by_cases hc : calls cfg r = []
  · exact Or.inl (round_retire hr hd hq hc true acks).1
  · right
    have hklt : k < cfg.MAX_REMINDERS := by
      by_contra hge
      exact hc (calls_nil_of_roundInv hi (Nat.le_of_not_lt hge))
    obtain ⟨h, delay, hto, ht⟩ := hd
    obtain ⟨f1, f2, f3, f4, f5⟩ := fire_resched ht hr hq hc
    have hget1 : (fire cfg s h now).reminderData.get messageId =
        some { r with reminderTimeout := some s.nextHandle } := by
      rw [f1, JsMap.get_set_self]
    have hsub : (calls cfg r).Subperm (fire cfg s h now).pending := by
      rw [f3]
      exact (List.sublist_append_right _ _).subperm
    have hget2 := settleAll_true_get (calls cfg r) (fire cfg s h now) messageId _ hget1
      (fun d hd' => (calls_not_replied hd').1) hsub
    obtain ⟨r', g1, g2, g3, g4, g5, g6⟩ :=
      collectAll_get acks _ r.uid messageId _ hget2
    rw [round_of_get hr hto]
    refine ⟨r', g1, ?_, ?_⟩
    · refine ⟨s.nextHandle, cfg.REMINDER_INTERVAL, g5, ?_⟩
      rw [(collectAll_frame _ _ _).1, (settleAll_frame _ _ _).1, f2]
      exact find_new_timer hH h messageId _
    · intro e he
      rw [g3] at he
      by_cases hack : r'.usersReplied.has e.2.id = true
      · exact Or.inl hack
      · right
        have hnr : r.usersReplied.has e.2.id = false := by
          cases hh : r.usersReplied.has e.2.id with
          | false => rfl
          | true => exact absurd (g6 _ hh) hack
        have hcount : r.reminderCounts.get e.2.id = some k := by
          rcases hi e he with h1 | h1
          · rw [hnr] at h1; cases h1
          · exact h1
        have hel : eligible cfg r e.2 = true := by
          simp [eligible, hnr, hcount, hklt]
        have hall : ∀ d ∈ calls cfg r, d.reminderCount = k := by
          intro d hd'
          obtain ⟨e', he', hel', rfl⟩ := mem_calls.mp hd'
          simp only [eligible, Bool.and_eq_true, Bool.not_eq_true', decide_eq_true_eq] at hel'
          rcases hi e' he' with h1 | h1
          · rw [hel'.1] at h1; cases h1
          · simp [h1]
        rw [g4]
        simp only
        rw [counts_fold_get _ k _ hall, if_pos]
        exact ⟨_, mem_calls.mpr ⟨e, he, hel, rfl⟩, rfl⟩

/-! ## Lemmas: rounds of a new record -/

theorem find_appended_timer {l : List Timer} {n : Nat} (hl : ∀ t ∈ l, t.handle < n)
    (messageId : Snowflake) (delay : Int) :
    List.find? (fun t : Timer => decide (t.handle = n)) (l ++ [⟨n, messageId, delay⟩]) =
      some ⟨n, messageId, delay⟩ := by
  have hnone : l.find? (fun t => decide (t.handle = n)) = none := by
    rw [List.find?_eq_none]
    intro t ht
    have := hl t ht
    simp only [decide_eq_true_eq]
    omega
  rw [List.find?_append, hnone]
  simp

/-- The state after `createReminder`: the record is registered with its timer live,
nobody acknowledged, every count 0, and nothing sent. -/
theorem createReminder_start {cfg : Config} {s : ReminderManager} (hH : HandleInv s)
    (message : Message) (mentionedUsers : JsMap User) (now : Nat) :
    ∃ r, (createReminder cfg s message mentionedUsers now).reminderData.get message.id =
          some r ∧
      Unanswered s.nextUid mentionedUsers 0 r ∧
      Due (createReminder cfg s message mentionedUsers now) message.id r ∧
      HandleInv (createReminder cfg s message mentionedUsers now) ∧
      (createReminder cfg s message mentionedUsers now).sent = s.sent := by
  refine ⟨_, createReminder_get cfg s message mentionedUsers now, ?_, ?_,
    handleInv_createReminder hH _ _ _, ?_⟩
  · exact ⟨rfl, rfl, rfl, initialCounts_get mentionedUsers⟩
  · refine ⟨s.nextHandle, cfg.REMINDER_INTERVAL, rfl, ?_⟩
    unfold createReminder
    simp only
    rw [startReminderLoop_of_get (JsMap.get_set_self _ _ _)]
    exact find_appended_timer hH _ _
  · unfold createReminder
    simp only
    rw [(nextUid_startReminderLoop _ _ _).2]

theorem roundInv_of_unanswered {uid : Nat} {mentionedUsers : JsMap User} {k : Nat}
    {r : Reminder} (h : Unanswered uid mentionedUsers k r) : RoundInv k r := by
  obtain ⟨_, h2, _, h4⟩ := h
  intro e he
  rw [h2] at he
  exact Or.inr (h4 e he)

/-- With nobody acknowledged and every count `k` below the cap, a cycle sends to every
recipient. -/
theorem calls_unanswered {cfg : Config} {uid : Nat} {mentionedUsers : JsMap User} {k : Nat}
    {r : Reminder} (h : Unanswered uid mentionedUsers k r) (hk : k < cfg.MAX_REMINDERS) :
    calls cfg r = mentionedUsers.map (fun e => ⟨uid, e.2, k⟩) := by
  obtain ⟨h1, h2, h3, h4⟩ := h
  unfold calls
  rw [h2]
  have hall : ∀ e ∈ mentionedUsers, eligible cfg r e.2 = true := by
    intro e he
    simp [eligible, h3, JsSet.has, h4 e he, hk]
  rw [List.filter_eq_self.mpr hall]
  apply List.map_congr_left
  intro e he
  rw [h1, h4 e he]
  rfl

theorem collectAll_nil (s : ReminderManager) (uid : Nat) : collectAll s uid [] = s := rfl

/-- A round in which nobody acknowledges, on a record with nobody acknowledged and every
count `k` below the cap: every recipient is sent to; the counts become `k + 1` when the
sends are fulfilled and stay `k` when they are rejected; the record stays registered with
a live timer. -/
theorem round_unanswered {cfg : Config} {s : ReminderManager} {messageId : Snowflake}
    {r : Reminder} {uid : Nat} {mentionedUsers : JsMap User} {k : Nat}
    (hr : s.reminderData.get messageId = some r) (hd : Due s messageId r) (hH : HandleInv s)
    (hu : Unanswered uid mentionedUsers k r) (hk : k < cfg.MAX_REMINDERS)
    (hne : mentionedUsers ≠ []) {now : DateTime} (hq : inQuietHours cfg now = false)
    (ok : Bool) :
    ∃ r', (round cfg s messageId now ok []).reminderData.get messageId = some r' ∧
      Unanswered uid mentionedUsers (if ok = true then k + 1 else k) r' ∧
      Due (round cfg s messageId now ok []) messageId r' ∧
      (round cfg s messageId now ok []).sent =
        s.sent ++ mentionedUsers.map (fun e => ⟨uid, e.2, k⟩) := by
  have hcalls := calls_unanswered hu hk
  have hc : calls cfg r ≠ [] := by
    rw [hcalls]
    simpa using hne
  obtain ⟨h, delay, hto, ht⟩ := hd
  obtain ⟨f1, f2, f3, f4, f5⟩ := fire_resched ht hr hq hc
  have hget1 : (fire cfg s h now).reminderData.get messageId =
      some { r with reminderTimeout := some s.nextHandle } := by
    rw [f1, JsMap.get_set_self]
  have hdue : ∀ r' : Reminder, r'.reminderTimeout = some s.nextHandle →
      Due (round cfg s messageId now ok []) messageId r' := by
    intro r' hr'
    refine ⟨s.nextHandle, cfg.REMINDER_INTERVAL, hr', ?_⟩
    rw [round_of_get hr hto, collectAll_nil, (settleAll_frame _ _ _).1, f2]
    exact find_new_timer hH h messageId _
  have hsent : (round cfg s messageId now ok []).sent =
      s.sent ++ mentionedUsers.map (fun e => ⟨uid, e.2, k⟩) := by
    rw [round_of_get hr hto, collectAll_nil, (settleAll_frame _ _ _).2.1, f4, hcalls]
  obtain ⟨h1, h2, h3, h4⟩ := hu
  cases ok with
  | false =>
    refine ⟨{ r with reminderTimeout := some s.nextHandle }, ?_, ⟨h1, h2, h3, h4⟩,
      hdue _ rfl, hsent⟩
    rw [round_of_get hr hto, collectAll_nil, settleAll_false_data]
    exact hget1
  | true =>
    have hsub : (calls cfg r).Subperm (fire cfg s h now).pending := by
      rw [f3]
      exact (List.sublist_append_right _ _).subperm
    have hget2 : ∃ r2, (settleAll (fire cfg s h now) (calls cfg r) true).reminderData.get
          messageId = some r2 ∧ r2.uid = r.uid ∧ r2.mentionedUsers = r.mentionedUsers ∧
        r2.usersReplied = r.usersReplied ∧ r2.reminderTimeout = some s.nextHandle ∧
        r2.reminderCounts = (calls cfg r).foldl
          (fun c d => c.set d.user.id (d.reminderCount + 1)) r.reminderCounts :=
      ⟨_, settleAll_true_get (calls cfg r) (fire cfg s h now) messageId _ hget1
        (fun d hd' => (calls_not_replied hd').1) hsub, rfl, rfl, rfl, rfl, rfl⟩
    obtain ⟨r2, e1, e2, e3, e4, e5, e6⟩ := hget2
    refine ⟨r2, ?_, ⟨e2.trans h1, e3.trans h2, e4.trans h3, ?_⟩, hdue r2 e5, hsent⟩
    · rw [round_of_get hr hto, collectAll_nil]
      exact e1
    · intro e he
      have hall : ∀ d ∈ calls cfg r, d.reminderCount = k := by
        intro d hd'
        rw [hcalls] at hd'
        obtain ⟨e', _, rfl⟩ := List.mem_map.mp hd'
        rfl
      simp only [if_true]
      rw [e6, counts_fold_get _ k _ hall, if_pos]
      rw [hcalls]
      exact ⟨_, List.mem_map_of_mem _ he, rfl⟩

theorem rounds_append (cfg : Config) (s : ReminderManager) (messageId : Snowflake) (ok : Bool)
    (plan : List (DateTime × List Snowflake)) (p : DateTime × List Snowflake) :
    rounds cfg s messageId ok (plan ++ [p]) =
      round cfg (rounds cfg s messageId ok plan) messageId p.1 ok p.2 := by
  simp [rounds, List.foldl_append]

/-- Rounds with fulfilled sends: after `n` rounds the record is removed, or every
recipient is acknowledged or at count `n`. -/
theorem rounds_true_inv {cfg : Config} {s : ReminderManager} {messageId : Snowflake}
    {r : Reminder} (hr : s.reminderData.get messageId = some r) (hd : Due s messageId r)
    (hH : HandleInv s) (hi : RoundInv 0 r) (plan : List (DateTime × List Snowflake))
    (hq : ∀ p ∈ plan, inQuietHours cfg p.1 = false) :
    HandleInv (rounds cfg s messageId true plan) ∧
      ((rounds cfg s messageId true plan).reminderData.get messageId = none ∨
        ∃ r', (rounds cfg s messageId true plan).reminderData.get messageId = some r' ∧
          Due (rounds cfg s messageId true plan) messageId r' ∧
          RoundInv plan.length r') := by
  induction plan using List.reverseRecOn with
  | nil => exact ⟨hH, Or.inr ⟨r, hr, hd, hi⟩⟩
  | append_singleton plan p ih =>
    obtain ⟨ihH, ih'⟩ := ih (fun q hq' => hq q (List.mem_append_left _ hq'))
    have hqp := hq p (List.mem_append_right _ (List.mem_singleton_self p))
    rw [rounds_append]
    refine ⟨handleInv_round ihH _ _ _ _, ?_⟩
    rcases ih' with hnone | ⟨r', h1, h2, h3⟩
    · left
      rw [round_of_none hnone]
      exact hnone
    · rw [List.length_append, List.length_singleton]
      exact round_true_step h1 h2 ihH h3 hqp p.2

/-- Rounds with fulfilled sends: the record is removed by round `MAX_REMINDERS + 1` at
the latest. -/
theorem rounds_true_retired {cfg : Config} {s : ReminderManager} {messageId : Snowflake}
    {r : Reminder} (hr : s.reminderData.get messageId = some r) (hd : Due s messageId r)
    (hH : HandleInv s) (hi : RoundInv 0 r) (plan : List (DateTime × List Snowflake))
    (hq : ∀ p ∈ plan, inQuietHours cfg p.1 = false)
    (hlen : cfg.MAX_REMINDERS + 1 ≤ plan.length) :
    (rounds cfg s messageId true plan).reminderData.get messageId = none := by
  induction plan using List.reverseRecOn with
  | nil => simp at hlen
  | append_singleton plan p _ =>
    rw [List.length_append, List.length_singleton] at hlen
    have hqp := hq p (List.mem_append_right _ (List.mem_singleton_self p))
    obtain ⟨ihH, ih'⟩ := rounds_true_inv hr hd hH hi plan
      (fun q hq' => hq q (List.mem_append_left _ hq'))
    rw [rounds_append]
    rcases ih' with hnone | ⟨r', h1, h2, h3⟩
    · rw [round_of_none hnone]
      exact hnone
    · exact (round_retire h1 h2 hqp
        (calls_nil_of_roundInv h3 (Nat.le_of_succ_le_succ hlen)) true p.2).1

/-- Rounds in which nobody acknowledges, from a record with nobody acknowledged and every
count 0: while the counts stay below the cap the record stays registered with a live
timer, the counts follow the rounds when the sends are fulfilled and stay 0 when they are
rejected, and each round sends to every recipient. -/
theorem rounds_unanswered {cfg : Config} {s : ReminderManager} {messageId : Snowflake}
    {r : Reminder} {uid : Nat} {mentionedUsers : JsMap User}
    (hr : s.reminderData.get messageId = some r) (hd : Due s messageId r) (hH : HandleInv s)
    (hu : Unanswered uid mentionedUsers 0 r) (hne : mentionedUsers ≠ [])
    (hmax : 0 < cfg.MAX_REMINDERS) (ok : Bool) (plan : List (DateTime × List Snowflake))
    (hq : ∀ p ∈ plan, inQuietHours cfg p.1 = false) (ha : ∀ p ∈ plan, p.2 = [])
    (hlen : ok = true → plan.length ≤ cfg.MAX_REMINDERS) :
    ∃ r', (rounds cfg s messageId ok plan).reminderData.get messageId = some r' ∧
      Unanswered uid mentionedUsers (if ok = true then plan.length else 0) r' ∧
      Due (rounds cfg s messageId ok plan) messageId r' ∧
      HandleInv (rounds cfg s messageId ok plan) ∧
      (rounds cfg s messageId ok plan).sent =
        s.sent ++ cycleLog uid mentionedUsers (fun j => if ok = true then j else 0)
          plan.length := by
  induction plan using List.reverseRecOn with
  | nil =>
    refine ⟨r, hr, ?_, hd, hH, by simp [rounds, cycleLog]⟩
    cases ok <;> exact hu
  | append_singleton plan p ih =>
    have hqp := hq p (List.mem_append_right _ (List.mem_singleton_self p))
    have hap := ha p (List.mem_append_right _ (List.mem_singleton_self p))
    rw [List.length_append, List.length_singleton] at hlen
    obtain ⟨r1, g1, g2, g3, g4, g5⟩ := ih (fun q hq' => hq q (List.mem_append_left _ hq'))
      (fun q hq' => ha q (List.mem_append_left _ hq')) (fun h => by have := hlen h; omega)
    have hk : (if ok = true then plan.length else 0) < cfg.MAX_REMINDERS := by
      cases ok with
      | false => simpa using hmax
      | true =>
        have := hlen rfl
        simp only [if_true]
        omega
    obtain ⟨r2, f1, f2, f3, f4⟩ := round_unanswered g1 g3 g4 g2 hk hne hqp ok
    rw [rounds_append, hap, List.length_append, List.length_singleton]
    refine ⟨r2, f1, ?_, f3, handleInv_round g4 _ _ _ _, ?_⟩
    · cases ok with
      | false => simpa using f2
      | true => simpa using f2
    · rw [f4, g5, List.append_assoc]
      rfl

/-! ## Lemmas: counting the sends of a log -/

theorem filter_user_length_one (l : JsMap User) (a : Snowflake)
    (hn : (l.map (fun e => e.2.id)).Nodup) (hm : ∃ e ∈ l, e.2.id = a) :
    (l.filter (fun e => decide (e.2.id = a))).length = 1 := by
  induction l with
  | nil => simp at hm
  | cons e l ih =>
    rw [List.map_cons, List.nodup_cons] at hn
    by_cases he : e.2.id = a
    · have hnone : l.filter (fun e => decide (e.2.id = a)) = [] := by
        rw [List.filter_eq_nil_iff]
        intro e' he' heq
        simp only [decide_eq_true_eq] at heq
        apply hn.1
        rw [he, ← heq]
        exact List.mem_map_of_mem (fun e => e.2.id) he'
      simp [List.filter_cons, he, hnone]
    · obtain ⟨m, hm1, hm2⟩ := hm
      rcases List.mem_cons.mp hm1 with h | h
      · rw [h] at hm2; exact absurd hm2 he
      · simp only [List.filter_cons, he, decide_False, Bool.false_eq_true, if_false]
        exact ih hn.2 ⟨m, h, hm2⟩

/-- With distinct user ids, a log of `n` cycles holds `n` sends to each recipient. -/
theorem sentTo_cycleLog (uid : Nat) (mentionedUsers : JsMap User) (count : Nat → Nat)
    (hn : (mentionedUsers.map (fun e => e.2.id)).Nodup) (e : Snowflake × User)
    (he : e ∈ mentionedUsers) (n : Nat) :
    (sentTo (cycleLog uid mentionedUsers count n) uid e.2.id).length = n := by
  induction n with
  | zero => simp [cycleLog, sentTo]
  | succ n ih =>
    have h1 : (sentTo (mentionedUsers.map (fun e' => (⟨uid, e'.2, count n⟩ : Delivery)))
        uid e.2.id).length = 1 := by
      unfold sentTo
      rw [List.filter_map, List.length_map]
      have := filter_user_length_one mentionedUsers e.2.id hn ⟨e, he, rfl⟩
      rw [← this]
      congr 1
      apply List.filter_congr
      intro x _
      simp
    simp only [cycleLog]
    rw [sentTo_append, List.length_append, ih, h1]

/-! ## Lemmas: the order of a settlement and an acknowledgment -/

/-- A settlement and a collector event commute. -/
theorem collect_sendSettled_comm (s : ReminderManager) (d : Delivery) (ok : Bool) (uid : Nat)
    (userId : Snowflake) :
    collect (sendSettled s d ok) uid userId = sendSettled (collect s uid userId) d ok := by
  unfold sendSettled collect
  by_cases hd : d ∈ s.pending
  · have hd' : d ∈ (updateRecord s uid (fun r => if r.mentionedUsers.has userId = true then
        { r with usersReplied := r.usersReplied.add userId } else r)).pending := hd
    rw [if_pos hd, if_pos hd']
    cases ok with
    | false => simp [updateRecord]
    | true =>
      simp only [if_true, updateRecord, List.map_map]
      congr 1
      apply List.map_congr_left
      intro e _
      obtain ⟨k, r⟩ := e
      simp only [Function.comp]
      by_cases h1 : r.uid = d.record
      · by_cases h2 : r.uid = uid
        · by_cases h3 : r.mentionedUsers.has userId = true
          · simp only [if_pos h1, if_pos h2, if_pos h3]
          · simp only [if_pos h1, if_pos h2, if_neg h3]
        · simp only [if_pos h1, if_neg h2]
      · by_cases h2 : r.uid = uid
        · by_cases h3 : r.mentionedUsers.has userId = true
          · simp only [if_neg h1, if_pos h2, if_pos h3]
          · simp only [if_neg h1, if_pos h2, if_neg h3]
        · simp only [if_neg h1, if_neg h2]
  · have hd' : d ∉ (updateRecord s uid (fun r => if r.mentionedUsers.has userId = true then
        { r with usersReplied := r.usersReplied.add userId } else r)).pending := hd
    rw [if_neg hd, if_neg hd']

/-- Rounds with fulfilled sends in which nobody acknowledges: round `MAX_REMINDERS + 1`
removes the record and sends nothing. -/
theorem rounds_unanswered_last {cfg : Config} {s : ReminderManager} {messageId : Snowflake}
    {r : Reminder} {uid : Nat} {mentionedUsers : JsMap User}
    (hr : s.reminderData.get messageId = some r) (hd : Due s messageId r) (hH : HandleInv s)
    (hu : Unanswered uid mentionedUsers 0 r) (hne : mentionedUsers ≠ [])
    (hmax : 0 < cfg.MAX_REMINDERS) (plan : List (DateTime × List Snowflake))
    (hq : ∀ p ∈ plan, inQuietHours cfg p.1 = false) (ha : ∀ p ∈ plan, p.2 = [])
    (hlen : plan.length = cfg.MAX_REMINDERS + 1) :
    (rounds cfg s messageId true plan).reminderData.get messageId = none ∧
      (rounds cfg s messageId true plan).sent =
        s.sent ++ cycleLog uid mentionedUsers (fun j => j) cfg.MAX_REMINDERS := by
  induction plan using List.reverseRecOn with
  | nil => simp at hlen
  | append_singleton plan p _ =>
    rw [List.length_append, List.length_singleton] at hlen
    have hlen' : plan.length = cfg.MAX_REMINDERS := by omega
    have hqp := hq p (List.mem_append_right _ (List.mem_singleton_self p))
    obtain ⟨r1, g1, g2, g3, _, g5⟩ := rounds_unanswered hr hd hH hu hne hmax true plan
      (fun q hq' => hq q (List.mem_append_left _ hq'))
      (fun q hq' => ha q (List.mem_append_left _ hq')) (fun _ => by omega)
    simp only [if_true] at g2 g5
    have hc : calls cfg r1 = [] :=
      calls_nil_of_roundInv (roundInv_of_unanswered g2) (by omega)
    have hret := round_retire g1 g3 hqp hc true p.2
    rw [rounds_append]
    refine ⟨hret.1, ?_⟩
    rw [hret.2, g5, hlen']
/-! ## Claims -/

/-- C1: in every state of every run of the manager (any order of `createReminder`,
`handleEveryoneMention`, timers firing inside or outside quiet hours, sends that settle
as fulfilled or rejected, and collector events), every entry of `reminderCounts` of a
registered record is at most `MAX_REMINDERS` = 5, and every recipient has an entry,
which is a natural number between 0 and 5. -/
theorem reminderCounts_within_bounds (events : List Event) (messageId : Snowflake)
    (reminder : Reminder)
    (h : (run source events).reminderData.get messageId = some reminder) :
    (∀ e ∈ reminder.reminderCounts, e.2 ≤ 5) ∧
      ∀ e ∈ reminder.mentionedUsers,
        ∃ n, reminder.reminderCounts.get e.2.id = some n ∧ 0 ≤ n ∧ n ≤ MAX_REMINDERS := by
  have hinv := (inv_run source events).1 (messageId, reminder) (JsMap.mem_of_get h)
  refine ⟨hinv.1, ?_⟩
  intro e he
  have hs := hinv.2 e he
  cases hget : reminder.reminderCounts.get e.2.id with
  | none => simp [hget] at hs
  | some n =>
    exact ⟨n, rfl, Nat.zero_le n, hinv.1 (e.2.id, n) (JsMap.mem_of_get hget)⟩

theorem reminderCounts_within_bounds_witness :
    (run source sampleRun).reminderData.get 10 = some sampleRecord ∧
      ((∀ e ∈ sampleRecord.reminderCounts, e.2 ≤ 5) ∧
        ∀ e ∈ sampleRecord.mentionedUsers,
          ∃ n, sampleRecord.reminderCounts.get e.2.id = some n ∧ 0 ≤ n ∧ n ≤ MAX_REMINDERS) :=
  ⟨by rw [run_sampleRun]; rfl,
   reminderCounts_within_bounds sampleRun 10 sampleRecord (by rw [run_sampleRun]; rfl)⟩

/-- C2: a timer of a run fires outside quiet hours for a registered record.  The cycle
removes the record exactly when every recipient is acknowledged or has count
`MAX_REMINDERS`, which is exactly when the cycle sends nothing; otherwise the record
stays registered (with only its timer handle replaced) and the cycle adds one timer,
with delay `REMINDER_INTERVAL`, in place of the one that fired. -/
theorem cycle_retires_iff_done (events : List Event) (handle : Nat) (t : Timer)
    (reminder : Reminder) (now : DateTime)
    (ht : (run source events).timers.find? (fun t => decide (t.handle = handle)) = some t)
    (hr : (run source events).reminderData.get t.messageId = some reminder)
    (hq : inQuietHours source now = false) :
    ((run source (events ++ [Event.timeout handle now])).reminderData.get t.messageId = none ↔
        ∀ e ∈ reminder.mentionedUsers,
          reminder.usersReplied.has e.2.id = true ∨
            reminder.reminderCounts.get e.2.id = some MAX_REMINDERS) ∧
      ((∀ e ∈ reminder.mentionedUsers,
          reminder.usersReplied.has e.2.id = true ∨
            reminder.reminderCounts.get e.2.id = some MAX_REMINDERS) ↔
        (run source (events ++ [Event.timeout handle now])).sent = (run source events).sent) ∧
      (¬ (∀ e ∈ reminder.mentionedUsers,
          reminder.usersReplied.has e.2.id = true ∨
            reminder.reminderCounts.get e.2.id = some MAX_REMINDERS) →
        (run source (events ++ [Event.timeout handle now])).reminderData.get t.messageId =
            some { reminder with reminderTimeout := some (run source events).nextHandle } ∧
          (run source (events ++ [Event.timeout handle now])).timers =
            (run source events).timers.filter (fun t => !decide (t.handle = handle)) ++
              [⟨(run source events).nextHandle, t.messageId, REMINDER_INTERVAL⟩]) := by
  have hinv : reminder.CountsOk source :=
    (inv_run source events).1 (t.messageId, reminder) (JsMap.mem_of_get hr)
  have hdone : (∀ e ∈ reminder.mentionedUsers,
      reminder.usersReplied.has e.2.id = true ∨
        reminder.reminderCounts.get e.2.id = some MAX_REMINDERS) ↔
      calls source reminder = [] := by
    rw [calls_eq_nil_iff]
    constructor
    · intro h e he
      exact (not_eligible_iff hinv he).mpr (h e he)
    · intro h e he
      exact (not_eligible_iff hinv he).mp (h e he)
  rw [run_append]
  simp only [step]
  rw [fire_active ht hr hq]
  by_cases hc : calls source reminder = []
  · have hall := hdone.mpr hc
    simp only [hc, List.length_nil, if_true, List.append_nil]
    refine ⟨?_, ?_, ?_⟩
    · exact ⟨fun _ => hall, fun _ => cleanupReminder_get_self _ _⟩
    · refine ⟨fun _ => ?_, fun _ => hall⟩
      rw [(cleanupReminder_sent _ _).1]
    · intro h
      exact absurd hall h
  · have hall : ¬ (∀ e ∈ reminder.mentionedUsers,
        reminder.usersReplied.has e.2.id = true ∨
          reminder.reminderCounts.get e.2.id = some MAX_REMINDERS) := fun h => hc (hdone.mp h)
    have hlen : (calls source reminder).length ≠ 0 := by
      simpa [List.length_eq_zero] using hc
    simp only [hlen, if_false]
    have hr' : ({ run source events with
        timers := (run source events).timers.filter (fun t => !decide (t.handle = handle))
        pending := (run source events).pending ++ calls source reminder
        sent := (run source events).sent ++ calls source reminder } :
          ReminderManager).reminderData.get t.messageId = some reminder := hr
    rw [startReminderLoop_of_get hr']
    refine ⟨?_, ?_, ?_⟩
    · constructor
      · intro h
        simp [JsMap.get_set_self] at h
      · intro h
        exact absurd h hall
    · constructor
      · intro h
        exact absurd h hall
      · intro h
        simp only at h
        have := congrArg List.length h
        simp at this
        exact absurd this hc
    · intro _
      refine ⟨?_, ?_⟩
      · simp [JsMap.get_set_self]
      · rfl

theorem cycle_retires_iff_done_witness :
    (run source sampleRun).timers.find? (fun t => decide (t.handle = 1)) = some ⟨1, 10, 5000⟩ ∧
      (run source sampleRun).reminderData.get 10 = some sampleRecord ∧
      inQuietHours source noon = false ∧
      (run source (sampleRun ++ [Event.timeout 1 noon])).reminderData.get 10 =
        some { sampleRecord with reminderTimeout := some (run source sampleRun).nextHandle } :=
  ⟨by rw [run_sampleRun]; rfl, by rw [run_sampleRun]; rfl, noon_active,
   ((cycle_retires_iff_done sampleRun 1 ⟨1, 10, 5000⟩ sampleRecord noon
      (by rw [run_sampleRun]; rfl) (by rw [run_sampleRun]; rfl) noon_active).2.2
      (by
        intro h
        have := h (1, alice) (by simp [sampleRecord])
        simp [sampleRecord, JsSet.has, JsMap.get, alice, MAX_REMINDERS] at this)).1⟩

/-- C3: a cycle on a registered record at a time of day inside the quiet window (at or
after 22:00, or before 07:30; quiet hours are enabled in the source) issues no send,
leaves the whole registry as it is (so `reminderCounts` and `usersReplied` of the record
are unchanged and the record stays registered), and adds exactly one timer for the
message. -/
theorem quiet_cycle_only_defers (s : ReminderManager) (messageId : Snowflake)
    (reminder : Reminder) (now : DateTime)
    (hr : s.reminderData.get messageId = some reminder)
    (hv : now.Valid) (hq : InQuietWindow now) :
    (sendReminders source s messageId now).sent = s.sent ∧
      (sendReminders source s messageId now).pending = s.pending ∧
      (sendReminders source s messageId now).reminderData = s.reminderData ∧
      (sendReminders source s messageId now).reminderData.get messageId = some reminder ∧
      (sendReminders source s messageId now).timers =
        s.timers ++ [⟨s.nextHandle, messageId, waitTime source now⟩] := by
  rw [sendReminders_quiet hr (inQuietHours_of_window hv hq)]
  exact ⟨rfl, rfl, rfl, hr, rfl⟩

theorem quiet_cycle_only_defers_witness :
    createdState.reminderData.get 10 = some createdRecord ∧
      elevenPm.Valid ∧ InQuietWindow elevenPm ∧
      (sendReminders source createdState 10 elevenPm).sent = createdState.sent ∧
      (sendReminders source createdState 10 elevenPm).reminderData = createdState.reminderData :=
  ⟨rfl, by decide, by decide,
   (quiet_cycle_only_defers createdState 10 createdRecord elevenPm rfl (by decide) (by decide)).1,
   (quiet_cycle_only_defers createdState 10 createdRecord elevenPm rfl (by decide) (by decide)).2.2.1⟩

/-- C4, as the code behaves: for a registered record and a time of day inside the quiet
window, the timer the cycle sets has as delay the elapsed time until the next
07:30:00.000 in the zone, the target being the next day's 07:30 when the hour is at
least 22 and today's otherwise; that is what the clock face shows (more than 0, at most
34,200,000 ms = 9 h 30 min, and 30,600,000 ms at 23:00:00.000) less the change of the
UTC offset between now and that 07:30.  So the delay is positive, at most 9 h 30 min, and
8 h 30 min at 23:00:00.000, when the offset does not change in between.  For a time of
day from 07:30 up to but excluding 22:00 the cycle is not deferred: it sends to the
eligible recipients and then removes the record or sets a timer of
`REMINDER_INTERVAL`. -/
theorem quiet_delay_until_seven_thirty (s : ReminderManager) (messageId : Snowflake)
    (reminder : Reminder) (now : DateTime)
    (hr : s.reminderData.get messageId = some reminder) (hv : now.Valid) :
    (InQuietWindow now →
        (sendReminders source s messageId now).timers =
            s.timers ++ [⟨s.nextHandle, messageId, untilNextSevenThirty now⟩] ∧
          waitTime source now = untilNextSevenThirty now ∧
          untilNextSevenThirty now =
            clockUntilSevenThirty now - 60000 * (offsetAtSevenThirty now - now.offset) ∧
          (22 ≤ now.hour →
            tomorrowMorning source now =
                ⟨now.day + 1, 7, 30, 0, 0, now.zone.offset (now.day + 1) 7 30, now.zone⟩ ∧
              offsetAtSevenThirty now = now.zone.offset (now.day + 1) 7 30) ∧
          (now.hour < 22 →
            tomorrowMorning source now =
                ⟨now.day, 7, 30, 0, 0, now.zone.offset now.day 7 30, now.zone⟩ ∧
              offsetAtSevenThirty now = now.zone.offset now.day 7 30) ∧
          0 < clockUntilSevenThirty now ∧ clockUntilSevenThirty now ≤ 34200000 ∧
          (now.hour = 23 ∧ now.minute = 0 ∧ now.second = 0 ∧ now.millisecond = 0 →
            clockUntilSevenThirty now = 30600000) ∧
          (offsetAtSevenThirty now = now.offset →
            0 < untilNextSevenThirty now ∧ untilNextSevenThirty now ≤ 34200000 ∧
              (now.hour = 23 ∧ now.minute = 0 ∧ now.second = 0 ∧ now.millisecond = 0 →
                untilNextSevenThirty now = 30600000))) ∧
      (InDayWindow now →
        inQuietHours source now = false ∧
          (sendReminders source s messageId now).sent = s.sent ++ calls source reminder ∧
          ((sendReminders source s messageId now).reminderData.get messageId = none ∨
            (sendReminders source s messageId now).timers =
              s.timers ++ [⟨s.nextHandle, messageId, REMINDER_INTERVAL⟩])) := by
  refine ⟨?_, ?_⟩
  · intro hq
    have hb := clockUntilSevenThirty_bounds hv hq
    have h23 : now.hour = 23 ∧ now.minute = 0 ∧ now.second = 0 ∧ now.millisecond = 0 →
        clockUntilSevenThirty now = 30600000 := by
      rintro ⟨h1, h2, h3, h4⟩
      simp [clockUntilSevenThirty, msOfDay, h1, h2, h3, h4]
    have hday : 22 ≤ now.hour → ¬ msOfDay now < 27000000 := by
      intro h
      unfold msOfDay
      omega
    have hmorning : now.hour < 22 → msOfDay now < 27000000 := by
      intro h
      obtain ⟨_, hm, hs, hms⟩ := hv
      unfold InQuietWindow at hq
      unfold msOfDay
      omega
    refine ⟨?_, waitTime_source hv hq, rfl, ?_, ?_, hb.1, hb.2, h23, ?_⟩
    · rw [sendReminders_quiet hr (inQuietHours_of_window hv hq), ← waitTime_source hv hq]
      rfl
    · intro h
      refine ⟨?_, ?_⟩
      · rw [tomorrowMorning_source]
        simp [h, DateTime.set, DateTime.plusDays]
      · unfold offsetAtSevenThirty
        rw [if_neg (hday h)]
    · intro h
      refine ⟨?_, ?_⟩
      · rw [tomorrowMorning_source]
        simp [Nat.not_le.mpr h, DateTime.set]
      · unfold offsetAtSevenThirty
        rw [if_pos (hmorning h)]
    · intro hoff
      have heq : untilNextSevenThirty now = clockUntilSevenThirty now := by
        unfold untilNextSevenThirty
        rw [hoff]
        ring
      rw [heq]
      exact ⟨hb.1, hb.2, h23⟩
  · intro hd
    have hq := inQuietHours_of_day hv hd
    refine ⟨hq, (sendReminders_active_sent hr hq).1, ?_⟩
    by_cases hc : calls source reminder = []
    · left
      rw [sendReminders_active_retire hr hq hc]
      exact cleanupReminder_get_self _ _
    · right
      exact (sendReminders_active_resched hr hq hc).2

theorem quiet_delay_until_seven_thirty_witness :
    createdState.reminderData.get 10 = some createdRecord ∧
      elevenPm.Valid ∧
      (sendReminders source createdState 10 elevenPm).timers =
        createdState.timers ++ [⟨createdState.nextHandle, 10, untilNextSevenThirty elevenPm⟩] ∧
      untilNextSevenThirty elevenPm = 30600000 :=
  ⟨rfl, by decide,
   ((quiet_delay_until_seven_thirty createdState 10 createdRecord elevenPm rfl (by decide)).1
      (by decide)).1,
   (((quiet_delay_until_seven_thirty createdState 10 createdRecord elevenPm rfl (by decide)).1
      (by decide)).2.2.2.2.2.2.2.2 rfl).2.2 ⟨rfl, rfl, rfl, rfl⟩⟩

/-- C4, as stated, fails on a night when the UTC offset changes, here with the rules of
`Europe/Paris` in 2026.  At 23:00:00.000 on 28 March the cycle is deferred by 27,000,000
ms (7 h 30 min), not 30,600,000 ms; at 22:00:00.000 on 24 October it is deferred by
37,800,000 ms (10 h 30 min), more than 34,200,000 ms. -/
theorem quiet_delay_on_offset_change :
    (marchNight.Valid ∧ InQuietWindow marchNight ∧
        (marchNight.hour = 23 ∧ marchNight.minute = 0 ∧ marchNight.second = 0 ∧
          marchNight.millisecond = 0) ∧
        (sendReminders source createdState 10 marchNight).timers =
          createdState.timers ++ [⟨createdState.nextHandle, 10, 27000000⟩] ∧
        waitTime source marchNight ≠ 30600000) ∧
      (octoberNight.Valid ∧ InQuietWindow octoberNight ∧
        (sendReminders source createdState 10 octoberNight).timers =
          createdState.timers ++ [⟨createdState.nextHandle, 10, 37800000⟩] ∧
        ¬ waitTime source octoberNight ≤ 34200000) := by
  have hr : createdState.reminderData.get 10 = some createdRecord := rfl
  have hm : waitTime source marchNight = 27000000 := by
    rw [waitTime_source (by decide) (by decide)]
    decide
  have ho : waitTime source octoberNight = 37800000 := by
    rw [waitTime_source (by decide) (by decide)]
    decide
  refine ⟨⟨by decide, by decide, by decide, ?_, ?_⟩, ⟨by decide, by decide, ?_, ?_⟩⟩
  · rw [sendReminders_quiet hr (inQuietHours_of_window (by decide) (by decide)), setTimeout, hm]
  · rw [hm]; decide
  · rw [sendReminders_quiet hr (inQuietHours_of_window (by decide) (by decide)), setTimeout, ho]
  · rw [ho]; decide

/-- C5: take a state of a run in which a registered record has `userId` in
`usersReplied`.  A cycle for that record issues no send to that user and leaves
`reminderCounts` (and `usersReplied`) of the record as they are; and whatever events
follow, the sends to that user for that record stay exactly those already in the log, so
no further reminder is ever sent. -/
theorem acknowledged_never_reminded (events later : List Event) (messageId : Snowflake)
    (reminder : Reminder) (userId : Snowflake) (now : DateTime)
    (hr : (run source events).reminderData.get messageId = some reminder)
    (hack : reminder.usersReplied.has userId = true) :
    (∃ new, (sendReminders source (run source events) messageId now).sent =
          (run source events).sent ++ new ∧
        (sendReminders source (run source events) messageId now).pending =
          (run source events).pending ++ new ∧
        ∀ d ∈ new, d.user.id ≠ userId) ∧
      (∀ r, (sendReminders source (run source events) messageId now).reminderData.get
            messageId = some r →
          r.reminderCounts = reminder.reminderCounts ∧
            r.usersReplied = reminder.usersReplied) ∧
      sentTo (run source (events ++ later)).sent reminder.uid userId =
        sentTo (run source events).sent reminder.uid userId := by
  refine ⟨?_, ?_, ?_⟩
  · cases hq : inQuietHours source now with
    | true =>
      rw [sendReminders_quiet hr hq]
      exact ⟨[], by simp [setTimeout], by simp [setTimeout], by simp⟩
    | false =>
      refine ⟨calls source reminder, (sendReminders_active_sent hr hq).1,
        (sendReminders_active_sent hr hq).2, ?_⟩
      intro d hd hid
      have h2 := (calls_not_replied hd).2
      rw [hid, hack] at h2
      cases h2
  · intro r hget
    cases hq : inQuietHours source now with
    | true =>
      rw [sendReminders_quiet hr hq] at hget
      have : (run source events).reminderData.get messageId = some r := hget
      rw [hr] at this
      cases this
      exact ⟨rfl, rfl⟩
    | false =>
      by_cases hc : calls source reminder = []
      · rw [sendReminders_active_retire hr hq hc, cleanupReminder_get_self] at hget
        cases hget
      · rw [(sendReminders_active_resched hr hq hc).1, JsMap.get_set_self] at hget
        cases hget
        exact ⟨rfl, rfl⟩
  · obtain ⟨h1, h2⟩ := acked_of_get events hr hack
    have : run source (events ++ later) = later.foldl (step source) (run source events) := by
      simp [run, List.foldl_append]
    rw [this]
    exact acked_foldl later h1 h2

theorem acknowledged_never_reminded_witness :
    (run source sampleRun).reminderData.get 10 = some sampleRecord ∧
      sampleRecord.usersReplied.has 2 = true ∧
      sentTo (run source (sampleRun ++ [Event.timeout 1 noon, Event.timeout 2 noon])).sent
          sampleRecord.uid 2 =
        sentTo (run source sampleRun).sent sampleRecord.uid 2 :=
  ⟨by rw [run_sampleRun]; rfl, by decide,
   (acknowledged_never_reminded sampleRun [Event.timeout 1 noon, Event.timeout 2 noon] 10
      sampleRecord 2 noon (by rw [run_sampleRun]; rfl) (by decide)).2.2⟩
/-- What a cycle and the settlement of one of its sends do.  A cycle outside quiet hours
on a registered record, and a recipient `e` who is not in `usersReplied` and has count
`c` below `MAX_REMINDERS`: the cycle issues a send to every eligible recipient, `e`
included, before any of them settles, and takes the reschedule branch.  When the send to
`e` is fulfilled right after the cycle, the entry of `e` becomes `c + 1`; when it is
rejected, the registry is unchanged.  Either way the timers and the log of sends are as
the cycle left them, and the other sends of the cycle are still pending.  In any later
state where that send is pending and the record is registered, fulfilment writes
`c + 1`, `c` being the count the cycle read, whatever the entry is by then. -/
theorem delivery_failure_is_isolated (s : ReminderManager) (messageId : Snowflake)
    (reminder : Reminder) (now : DateTime) (e : Snowflake × User)
    (hr : s.reminderData.get messageId = some reminder)
    (hq : inQuietHours source now = false)
    (he : e ∈ reminder.mentionedUsers)
    (hna : reminder.usersReplied.has e.2.id = false)
    (hlt : (reminder.reminderCounts.get e.2.id).getD 0 < MAX_REMINDERS) :
    ((sendReminders source s messageId now).sent = s.sent ++ calls source reminder ∧
        (sendReminders source s messageId now).pending = s.pending ++ calls source reminder ∧
        ∀ e' ∈ reminder.mentionedUsers, eligible source reminder e'.2 = true →
          (⟨reminder.uid, e'.2, (reminder.reminderCounts.get e'.2.id).getD 0⟩ : Delivery) ∈
            calls source reminder) ∧
      ((sendReminders source s messageId now).reminderData.get messageId =
          some { reminder with reminderTimeout := some s.nextHandle } ∧
        (sendReminders source s messageId now).timers =
          s.timers ++ [⟨s.nextHandle, messageId, REMINDER_INTERVAL⟩]) ∧
      (∃ r, (sendSettled (sendReminders source s messageId now)
            ⟨reminder.uid, e.2, (reminder.reminderCounts.get e.2.id).getD 0⟩
            true).reminderData.get messageId = some r ∧
          r.reminderCounts.get e.2.id =
            some ((reminder.reminderCounts.get e.2.id).getD 0 + 1) ∧
          ∀ k, k ≠ e.2.id → r.reminderCounts.get k = reminder.reminderCounts.get k) ∧
      ((sendSettled (sendReminders source s messageId now)
            ⟨reminder.uid, e.2, (reminder.reminderCounts.get e.2.id).getD 0⟩
            false).reminderData = (sendReminders source s messageId now).reminderData) ∧
      (∀ (s2 : ReminderManager) (r2 : Reminder),
        (⟨reminder.uid, e.2, (reminder.reminderCounts.get e.2.id).getD 0⟩ : Delivery) ∈
            s2.pending →
          s2.reminderData.get messageId = some r2 → r2.uid = reminder.uid →
          ∃ r, (sendSettled s2 ⟨reminder.uid, e.2, (reminder.reminderCounts.get e.2.id).getD 0⟩
              true).reminderData.get messageId = some r ∧
            r.reminderCounts.get e.2.id =
              some ((reminder.reminderCounts.get e.2.id).getD 0 + 1)) ∧
      ∀ ok : Bool,
        (sendSettled (sendReminders source s messageId now)
            ⟨reminder.uid, e.2, (reminder.reminderCounts.get e.2.id).getD 0⟩ ok).timers =
          (sendReminders source s messageId now).timers ∧
        (sendSettled (sendReminders source s messageId now)
            ⟨reminder.uid, e.2, (reminder.reminderCounts.get e.2.id).getD 0⟩ ok).sent =
          (sendReminders source s messageId now).sent ∧
        (sendSettled (sendReminders source s messageId now)
            ⟨reminder.uid, e.2, (reminder.reminderCounts.get e.2.id).getD 0⟩ ok).pending =
          (s.pending ++ calls source reminder).erase
            ⟨reminder.uid, e.2, (reminder.reminderCounts.get e.2.id).getD 0⟩ := by
  have hel : eligible source reminder e.2 = true := by
    simp only [eligible, hna, Bool.not_false, Bool.true_and, decide_eq_true_eq]
    exact hlt
  have hd : (⟨reminder.uid, e.2, (reminder.reminderCounts.get e.2.id).getD 0⟩ : Delivery) ∈
      calls source reminder := mem_calls.mpr ⟨e, he, hel, rfl⟩
  have hc : calls source reminder ≠ [] := List.ne_nil_of_mem hd
  have hsent := sendReminders_active_sent hr hq
  have hres := sendReminders_active_resched hr hq hc
  have hget : (sendReminders source s messageId now).reminderData.get messageId =
      some { reminder with reminderTimeout := some s.nextHandle } := by
    rw [hres.1, JsMap.get_set_self]
  have hpend : (⟨reminder.uid, e.2, (reminder.reminderCounts.get e.2.id).getD 0⟩ : Delivery) ∈
      (sendReminders source s messageId now).pending := by
    rw [hsent.2]
    exact List.mem_append_right _ hd
  refine ⟨⟨hsent.1, hsent.2, ?_⟩, ⟨hget, hres.2⟩, ?_, ?_, ?_, ?_⟩
  · intro e' he' hel'
    exact mem_calls.mpr ⟨e', he', hel', rfl⟩
  · refine ⟨_, sendSettled_ok_get hpend hget rfl, ?_, ?_⟩
    · exact JsMap.get_set_self _ _ _
    · intro k hk
      exact JsMap.get_set_ne _ _ hk
  · rw [sendSettled_fail hpend]
  · intro s2 r2 hp2 hr2 hu2
    exact ⟨_, sendSettled_ok_get hp2 hr2 hu2, JsMap.get_set_self _ _ _⟩
  · intro ok
    refine ⟨(sendSettled_frame _ _ _).1, (sendSettled_frame _ _ _).2, ?_⟩
    rw [sendSettled_pending hpend, hsent.2]

/-- C6, the code when a send settles after later cycles have run.  One recipient; cycles
1 and 2 run before any send settles, so both send at count 0; one of these sends is
fulfilled (count 1); cycle 3 sends at count 1 and that send is fulfilled (count 2).  The
send of the other early cycle is still pending; when it is fulfilled, the count is not
increased by 1: it goes from 2 down to 1. -/
theorem late_fulfilment_lowers_count :
    ((run source staleRun).reminderData.get 10).map (fun r => r.reminderCounts) =
        some [(1, 2)] ∧
      (run source staleRun).pending = [⟨0, alice, 0⟩] ∧
      (run source staleRun).sent = [⟨0, alice, 0⟩, ⟨0, alice, 0⟩, ⟨0, alice, 1⟩] ∧
      ((run source (staleRun ++ [Event.settled ⟨0, alice, 0⟩ true])).reminderData.get 10).map
          (fun r => r.reminderCounts) = some [(1, 1)] := by
  have h : run source staleRun =
      { reminderData :=
          [(10, { uid := 0, message := sampleMessage, mentionedUsers := [(1, alice)],
                  usersReplied := [], reminderCounts := [(1, 2)], channel := ⟨100⟩,
                  reminderTimeout := some 3, createdAt := 0 })]
        timers := [⟨3, 10, 5000⟩]
        nextHandle := 4
        nextUid := 1
        pending := [⟨0, alice, 0⟩]
        sent := [⟨0, alice, 0⟩, ⟨0, alice, 0⟩, ⟨0, alice, 1⟩] } := by
    simp [run, staleRun, step, fire, createReminder, startReminderLoop, setTimeout,
      ReminderManager.new, JsMap.get, JsMap.set, sampleMessage, initialCounts, alice,
      sendReminders, noon_active, remindAll, remindUser, JsSet.has, source_max,
      source_interval, sendSettled, updateRecord]
  rw [run_append, h]
  simp [step, sendSettled, updateRecord, JsMap.get, JsMap.set, alice]

/-- C7, as the code behaves: in the scenario (recipients A and B, `MAX_REMINDERS = 2`,
quiet hours disabled, every send fulfilled before the next cycle) the first cycle sends
reminder 1 to both and the counts become A:1, B:1; B acknowledges; the second cycle sends
only to A, reminder 2, and the counts become A:2, B:1; that cycle found A eligible, so the
record stays registered with one more timer of `REMINDER_INTERVAL`; the third cycle sends
nothing and removes the record.  (A `Delivery` with `reminderCount = n` is reminder
`n + 1`.) -/
theorem scenario_retires_in_third_cycle (t1 t2 t3 : DateTime) :
    ((run scenario (firstCycle t1)).sent = [⟨0, alice, 0⟩, ⟨0, bob, 0⟩] ∧
        (run scenario (firstCycle t1)).reminderData.get 10 =
          some (scenarioRecord [] [(1, 1), (2, 1)] 1)) ∧
      ((run scenario (secondCycle t1 t2)).sent =
          [⟨0, alice, 0⟩, ⟨0, bob, 0⟩, ⟨0, alice, 1⟩] ∧
        (run scenario (secondCycle t1 t2)).reminderData.get 10 =
          some (scenarioRecord [2] [(1, 2), (2, 1)] 2) ∧
        (run scenario (secondCycle t1 t2)).timers = [⟨2, 10, 1000⟩]) ∧
      ((run scenario (thirdCycle t1 t2 t3)).sent =
          [⟨0, alice, 0⟩, ⟨0, bob, 0⟩, ⟨0, alice, 1⟩] ∧
        (run scenario (thirdCycle t1 t2 t3)).reminderData.get 10 = none ∧
        (run scenario (thirdCycle t1 t2 t3)).timers = []) := by
  rw [run_firstCycle, run_secondCycle, run_thirdCycle]
  simp [JsMap.get]

/-- C7, as stated, fails: at the end of the second cycle of the scenario (run here at
noon), with A at count 2 and B acknowledged, the record is still registered. -/
theorem scenario_second_cycle_keeps_record :
    (run scenario (secondCycle noon noon)).reminderData.get 10 =
        some (scenarioRecord [2] [(1, 2), (2, 1)] 2) ∧
      ¬ ((run scenario (secondCycle noon noon)).reminderData.get 10 = none) := by
  rw [run_secondCycle]
  simp [JsMap.get]

/-- C8, the code at a broadcast mention that resolves to nobody: in a guild whose only
members are the author and the bot itself, `handleEveryoneMention` resolves the empty
recipient set, and still registers a record for the message and sets its timer. -/
theorem everyone_mention_without_recipients :
    guildMembers lonelyMessage = some [(9, ⟨⟨9, false⟩⟩), (7, ⟨⟨7, true⟩⟩)] ∧
      everyoneUsers lonelyMessage 7 [(9, ⟨⟨9, false⟩⟩), (7, ⟨⟨7, true⟩⟩)] = [] ∧
      handleEveryoneMention source ReminderManager.new lonelyMessage 7 0 =
        { reminderData :=
            [(11, { uid := 0, message := lonelyMessage, mentionedUsers := [],
                    usersReplied := [], reminderCounts := [], channel := ⟨101⟩,
                    reminderTimeout := some 0, createdAt := 0 })]
          timers := [⟨0, 11, 5000⟩]
          nextHandle := 1
          nextUid := 1
          pending := []
          sent := [] } := by
  refine ⟨by decide, by decide, by decide⟩

/-- C9: `handleEveryoneMention` on a message whose guild members resolve to `members`
registers a record for the message.  Its recipients are keyed by user id; the ids are
exactly the ids of the members that are not bots, not the author and not the bot itself;
every recipient is the user of such a member and has count 0; nobody is acknowledged.
When the member ids are distinct (as in a discord.js collection) the recipients are
those members' users, in the order of the member list; and if moreover there are 10
members, among them the author and the bot itself, the others not bots, the record has
exactly 8 recipients. -/
theorem everyone_mention_recipients (s : ReminderManager) (message : Message)
    (botId : Snowflake) (now : Nat) (members : JsMap GuildMember)
    (hm : guildMembers message = some members) :
    ∃ r, (handleEveryoneMention source s message botId now).reminderData.get message.id =
          some r ∧
      r.usersReplied = [] ∧
      (∀ id, r.mentionedUsers.has id = true ↔
        ∃ e ∈ members, e.2.user.id = id ∧ e.2.user.bot = false ∧
          id ≠ message.author.id ∧ id ≠ botId) ∧
      (∀ e ∈ r.mentionedUsers,
        e.1 = e.2.id ∧ (∃ m ∈ members, m.2.user = e.2) ∧ e.2.bot = false ∧
          e.2.id ≠ message.author.id ∧ e.2.id ≠ botId ∧
          r.reminderCounts.get e.2.id = some 0) ∧
      ((members.map (fun e => e.2.user.id)).Nodup →
        r.mentionedUsers =
          (members.filter (fun e => !e.2.user.bot && e.2.user.id != message.author.id &&
            e.2.user.id != botId)).map (fun e => (e.2.user.id, e.2.user))) ∧
      ((members.map (fun e => e.2.user.id)).Nodup → members.length = 10 →
        (∃ m ∈ members, m.2.user.id = message.author.id) →
        (∃ m ∈ members, m.2.user.id = botId) →
        message.author.id ≠ botId →
        (∀ m ∈ members, m.2.user.id ≠ message.author.id → m.2.user.id ≠ botId →
          m.2.user.bot = false) →
        r.mentionedUsers.size = 8) := by
  have hrun : handleEveryoneMention source s message botId now =
      createReminder source s message
        (JsMap.ofEntries ((everyoneUsers message botId members).map
          (fun user => (user.id, user)))) now := by
    simp [handleEveryoneMention, hm]
  have hnodup : (members.map (fun e => e.2.user.id)).Nodup →
      JsMap.ofEntries ((everyoneUsers message botId members).map (fun user => (user.id, user))) =
        (everyoneUsers message botId members).map (fun user => (user.id, user)) := by
    intro hn
    apply JsMap.ofEntries_nodup
    unfold everyoneUsers
    simp only [List.map_map]
    exact hn.sublist ((List.filter_sublist _).map _)
  refine ⟨_, by rw [hrun]; exact createReminder_get _ _ _ _ _, rfl, ?_, ?_, ?_, ?_⟩
  · intro id
    simp only
    rw [JsMap.ofEntries_has]
    constructor
    · rintro ⟨e, he, rfl⟩
      obtain ⟨u, hu, rfl⟩ := List.mem_map.mp he
      obtain ⟨m, hm1, rfl, h1, h2, h3⟩ := mem_everyoneUsers.mp hu
      exact ⟨m, hm1, rfl, h1, h2, h3⟩
    · rintro ⟨m, hm1, rfl, h1, h2, h3⟩
      exact ⟨(m.2.user.id, m.2.user),
        List.mem_map.mpr ⟨m.2.user, mem_everyoneUsers.mpr ⟨m, hm1, rfl, h1, h2, h3⟩, rfl⟩, rfl⟩
  · intro e he
    simp only at he ⊢
    have he' := JsMap.ofEntries_mem _ e he
    obtain ⟨u, hu, rfl⟩ := List.mem_map.mp he'
    obtain ⟨m, hm1, rfl, h1, h2, h3⟩ := mem_everyoneUsers.mp hu
    exact ⟨rfl, ⟨m, hm1, rfl⟩, h1, h2, h3, initialCounts_get _ _ he⟩
  · intro hn
    simp only
    rw [hnodup hn]
    unfold everyoneUsers
    simp [List.map_map]
  · intro hn hlen ha hb hab hrest
    simp only [JsMap.size]
    rw [hnodup hn, List.length_map]
    have := everyoneUsers_length hn ha hb hab hrest
    omega

theorem everyone_mention_recipients_witness :
    guildMembers broadcastMessage = some tenMembers ∧
      ∃ r, (handleEveryoneMention source ReminderManager.new broadcastMessage 20
            0).reminderData.get broadcastMessage.id = some r ∧
        r.mentionedUsers.size = 8 :=
  ⟨rfl, by
    obtain ⟨r, h1, _, _, _, _, h6⟩ :=
      everyone_mention_recipients ReminderManager.new broadcastMessage 20 0 tenMembers rfl
    exact ⟨r, h1, h6 (by decide) (by decide) (by decide) (by decide) (by decide) (by decide)⟩⟩

/-- C10: `cleanupReminder` is total (it returns without an error for every state and
id) and idempotent: a second call for the same id returns the state of the first call
unchanged.  A call leaves no record for the id, keeps every entry of the registry under
another id as it is and adds none, and does not touch the pending sends or the log. -/
theorem cleanupReminder_idempotent (s : ReminderManager) (messageId : Snowflake) :
    cleanupReminder (cleanupReminder s messageId) messageId = cleanupReminder s messageId ∧
      (cleanupReminder s messageId).reminderData.get messageId = none ∧
      (∀ k, k ≠ messageId →
        (cleanupReminder s messageId).reminderData.get k = s.reminderData.get k) ∧
      (∀ e, e ∈ (cleanupReminder s messageId).reminderData ↔
        e ∈ s.reminderData ∧ e.1 ≠ messageId) ∧
      (cleanupReminder s messageId).pending = s.pending ∧
      (cleanupReminder s messageId).sent = s.sent := by
  have hnone := cleanupReminder_get_self s messageId
  refine ⟨?_, hnone, ?_, ?_, (cleanupReminder_sent s messageId).2,
    (cleanupReminder_sent s messageId).1⟩
  · exact cleanupReminder_of_none hnone
  · intro k hk
    unfold cleanupReminder
    cases hr : s.reminderData.get messageId with
    | none => rfl
    | some reminder =>
      simp only [(clearTimeout_fields s reminder.reminderTimeout).1]
      exact JsMap.get_delete_ne _ hk
  · intro e
    unfold cleanupReminder
    cases hr : s.reminderData.get messageId with
    | none =>
      simp only
      constructor
      · intro he
        refine ⟨he, ?_⟩
        intro hk
        have hmem : messageId ∈ s.reminderData.map (fun e => e.1) :=
          hk ▸ List.mem_map_of_mem (fun e => e.1) he
        exact (JsMap.get_eq_none_iff _ _).mp hr hmem
      · exact fun h => h.1
    | some reminder =>
      simp only [(clearTimeout_fields s reminder.reminderTimeout).1, JsMap.delete,
        List.mem_filter, Bool.not_eq_true', decide_eq_false_iff_not]

/-- C11: a record is created in a state of a run, and rounds follow: in each, the
record's timer fires outside quiet hours, every send of that cycle is fulfilled before
the next cycle, and any users acknowledge.  Whatever the acknowledgments, after
`MAX_REMINDERS + 1` = 6 rounds the record is removed.  When nobody acknowledges and the
recipient set is not empty, after `n ≤ 5` rounds the record is still registered with
every count `n`, and round `j` sent reminder `j` to every recipient; the 6th round
removes the record and sends nothing, so each recipient got exactly the reminders 1 to
5.  A settlement and an acknowledgment commute, so their order inside a round does not
matter. -/
theorem retired_by_sixth_cycle (events : List Event) (message : Message)
    (mentionedUsers : JsMap User) (t0 : Nat) (plan : List (DateTime × List Snowflake))
    (hq : ∀ p ∈ plan, inQuietHours source p.1 = false) :
    (∃ r, (createReminder source (run source events) message mentionedUsers
          t0).reminderData.get message.id = some r) ∧
      (MAX_REMINDERS + 1 ≤ plan.length →
        (rounds source (createReminder source (run source events) message mentionedUsers t0)
          message.id true plan).reminderData.get message.id = none) ∧
      ((∀ p ∈ plan, p.2 = []) → mentionedUsers ≠ [] →
        (plan.length ≤ MAX_REMINDERS →
          ∃ r, (rounds source
                (createReminder source (run source events) message mentionedUsers t0)
                message.id true plan).reminderData.get message.id = some r ∧
            r.usersReplied = [] ∧
            (∀ e ∈ mentionedUsers, r.reminderCounts.get e.2.id = some plan.length) ∧
            (rounds source (createReminder source (run source events) message mentionedUsers t0)
                message.id true plan).sent =
              (run source events).sent ++
                cycleLog (run source events).nextUid mentionedUsers (fun j => j)
                  plan.length) ∧
        (plan.length = MAX_REMINDERS + 1 →
          (rounds source (createReminder source (run source events) message mentionedUsers t0)
              message.id true plan).reminderData.get message.id = none ∧
            (rounds source (createReminder source (run source events) message mentionedUsers t0)
                message.id true plan).sent =
              (run source events).sent ++
                cycleLog (run source events).nextUid mentionedUsers (fun j => j)
                  MAX_REMINDERS ∧
            ((mentionedUsers.map (fun e => e.2.id)).Nodup →
              ∀ e ∈ mentionedUsers,
                (sentTo (cycleLog (run source events).nextUid mentionedUsers (fun j => j)
                  MAX_REMINDERS) (run source events).nextUid e.2.id).length =
                  MAX_REMINDERS))) ∧
      ∀ (s : ReminderManager) (d : Delivery) (ok : Bool) (uid : Nat) (userId : Snowflake),
        collect (sendSettled s d ok) uid userId = sendSettled (collect s uid userId) d ok := by
  obtain ⟨r0, h1, h2, h3, h4, h5⟩ :=
    @createReminder_start source (run source events) (handleInv_run source events) message
      mentionedUsers t0
  refine ⟨⟨r0, h1⟩, ?_, ?_, collect_sendSettled_comm⟩
  · intro hlen
    exact rounds_true_retired h1 h3 h4 (roundInv_of_unanswered h2) plan hq hlen
  · intro ha hne
    refine ⟨?_, ?_⟩
    · intro hlen
      obtain ⟨r, g1, g2, _, _, g5⟩ := rounds_unanswered h1 h3 h4 h2 hne
        (by decide : 0 < source.MAX_REMINDERS) true plan hq ha (fun _ => hlen)
      simp only [if_true] at g2 g5
      exact ⟨r, g1, g2.2.2.1, g2.2.2.2, by rw [g5, h5]⟩
    · intro hlen
      obtain ⟨g1, g2⟩ := rounds_unanswered_last h1 h3 h4 h2 hne
        (by decide : 0 < source.MAX_REMINDERS) plan hq ha hlen
      refine ⟨g1, by rw [g2, h5]; rfl, ?_⟩
      intro hn e he
      exact sentTo_cycleLog _ _ _ hn e he _

theorem retired_by_sixth_cycle_witness :
    (∀ p ∈ sixRounds, inQuietHours source p.1 = false) ∧
      (rounds source (createReminder source (run source []) sampleMessage
          [(1, alice), (2, bob)] 0) sampleMessage.id true sixRounds).reminderData.get
          sampleMessage.id = none ∧
      (rounds source (createReminder source (run source []) sampleMessage
          [(1, alice), (2, bob)] 0) sampleMessage.id true sixRounds).sent =
        (run source []).sent ++
          cycleLog (run source []).nextUid [(1, alice), (2, bob)] (fun j => j)
            MAX_REMINDERS :=
  ⟨fun p hp => by rw [List.eq_of_mem_replicate hp]; exact noon_active,
   ((retired_by_sixth_cycle [] sampleMessage [(1, alice), (2, bob)] 0 sixRounds
      (fun p hp => by rw [List.eq_of_mem_replicate hp]; exact noon_active)).2.2.1
      (fun p hp => by rw [List.eq_of_mem_replicate hp]) (by decide)).2 (by decide) |>.1,
   ((retired_by_sixth_cycle [] sampleMessage [(1, alice), (2, bob)] 0 sixRounds
      (fun p hp => by rw [List.eq_of_mem_replicate hp]; exact noon_active)).2.2.1
      (fun p hp => by rw [List.eq_of_mem_replicate hp]) (by decide)).2 (by decide) |>.2.1⟩

/-- C12: a record with at least one recipient is created in a state of a run, and
rounds follow: in each, the record's timer fires outside quiet hours, every send of that
cycle is rejected, and nobody acknowledges.  After any number `n` of rounds the record is
still registered, nobody is acknowledged, every count is still 0, the record's timer is
live, and each of the `n` cycles issued a send to every recipient (so, with distinct
user ids, `n` sends to each recipient, for every `n`, beyond `MAX_REMINDERS`). -/
theorem rejected_sends_never_retire (events : List Event) (message : Message)
    (mentionedUsers : JsMap User) (t0 : Nat) (plan : List (DateTime × List Snowflake))
    (hq : ∀ p ∈ plan, inQuietHours source p.1 = false) (ha : ∀ p ∈ plan, p.2 = [])
    (hne : mentionedUsers ≠ []) :
    ∃ r h, (rounds source (createReminder source (run source events) message mentionedUsers t0)
          message.id false plan).reminderData.get message.id = some r ∧
      r.usersReplied = [] ∧
      (∀ e ∈ mentionedUsers, r.reminderCounts.get e.2.id = some 0) ∧
      r.reminderTimeout = some h ∧
      (∃ delay, (rounds source
          (createReminder source (run source events) message mentionedUsers t0)
          message.id false plan).timers.find? (fun t => decide (t.handle = h)) =
            some ⟨h, message.id, delay⟩) ∧
      (rounds source (createReminder source (run source events) message mentionedUsers t0)
          message.id false plan).sent =
        (run source events).sent ++
          cycleLog (run source events).nextUid mentionedUsers (fun _ => 0) plan.length ∧
      ((mentionedUsers.map (fun e => e.2.id)).Nodup →
        ∀ e ∈ mentionedUsers,
          (sentTo (cycleLog (run source events).nextUid mentionedUsers (fun _ => 0)
            plan.length) (run source events).nextUid e.2.id).length = plan.length) := by
  obtain ⟨r0, h1, h2, h3, h4, h5⟩ :=
    @createReminder_start source (run source events) (handleInv_run source events) message
      mentionedUsers t0
  obtain ⟨r, g1, g2, ⟨h, delay, g3, g3'⟩, _, g5⟩ := rounds_unanswered h1 h3 h4 h2 hne
    (by decide : 0 < source.MAX_REMINDERS) false plan hq ha (fun hf => by cases hf)
  simp only [Bool.false_eq_true, if_false] at g2 g5
  refine ⟨r, h, g1, g2.2.2.1, g2.2.2.2, g3, ⟨delay, g3'⟩, by rw [g5, h5], ?_⟩
  intro hn e he
  exact sentTo_cycleLog _ _ _ hn e he _

theorem rejected_sends_never_retire_witness :
    (∀ p ∈ sevenRounds, inQuietHours source p.1 = false) ∧
      ∃ r h, (rounds source (createReminder source (run source []) sampleMessage
            [(1, alice)] 0) sampleMessage.id false sevenRounds).reminderData.get
            sampleMessage.id = some r ∧
        r.usersReplied = [] ∧
        (∀ e ∈ [(1, alice)], r.reminderCounts.get e.2.id = some 0) ∧
        r.reminderTimeout = some h ∧
        (∃ delay, (rounds source (createReminder source (run source []) sampleMessage
            [(1, alice)] 0) sampleMessage.id false sevenRounds).timers.find?
              (fun t => decide (t.handle = h)) = some ⟨h, sampleMessage.id, delay⟩) ∧
        (rounds source (createReminder source (run source []) sampleMessage
            [(1, alice)] 0) sampleMessage.id false sevenRounds).sent =
          (run source []).sent ++
            cycleLog (run source []).nextUid [(1, alice)] (fun _ => 0) sevenRounds.length ∧
        ((([(1, alice)] : JsMap User).map (fun e => e.2.id)).Nodup →
          ∀ e ∈ [(1, alice)],
            (sentTo (cycleLog (run source []).nextUid [(1, alice)] (fun _ => 0)
              sevenRounds.length) (run source []).nextUid e.2.id).length =
                sevenRounds.length) :=
  ⟨fun p hp => by rw [List.eq_of_mem_replicate hp]; exact noon_active,
   rejected_sends_never_retire [] sampleMessage [(1, alice)] 0 sevenRounds
     (fun p hp => by rw [List.eq_of_mem_replicate hp]; exact noon_active)
     (fun p hp => by rw [List.eq_of_mem_replicate hp]) (by decide)⟩

end DiscordReminder
